import Mathlib

/-!
Verification of the FatFs driver (src/source/ff.c) of this repository.

The definitions below are shallow embeddings of the C functions named in
their doc comments.  Machine integers are modelled as Nat with explicit
truncation (a BYTE cast is a mod 0x100, a DWORD operation is a mod
0x100000000, an unsigned right shift by 8 is a division by 0x100).
Byte buffers (the sector window and the per-file sector cache) are
modelled as functions from byte offset to byte value.  The configuration
assumed throughout is the one this fork builds with everything that the
claims touch enabled: FF_FS_READONLY == 0, FF_USE_LFN != 0, FF_FS_LOCK > 0,
FF_FS_TINY == 0, FF_USE_TRIM == 0, FF_USE_FASTSEEK paths are modelled with
fp->cltbl == 0 (the state every f_open leaves the handle in), and
LOSCFG_FS_FAT_VIRTUAL_PARTITION is not defined.
-/

namespace FatFs

/-- Result codes of the API (FRESULT in ff.h).  Only the constructors this
development uses are listed; the fork adds FR_NO_SPACE_LEFT, FR_NO_EPERM and
FR_IS_DIR to the upstream enum. -/
inductive FRESULT where
  | ok
  | diskErr
  | intErr
  | noFile
  | noPath
  | invalidName
  | denied
  | exist
  | invalidObject
  | noFilesystem
  | locked
  | notEnoughCore
  | tooManyOpenFiles
  | invalidParameter
  | noSpaceLeft
  | noEperm
  | isDir
  deriving DecidableEq, Repr

/-- FAT sub-type tags FS_FAT12 / FS_FAT16 / FS_FAT32 (ff.h). -/
def FS_FAT12 : Nat := 1

/-- FAT sub-type tag FS_FAT16. -/
def FS_FAT16 : Nat := 2

/-- FAT sub-type tag FS_FAT32. -/
def FS_FAT32 : Nat := 3

/-- C unsigned 32-bit (DWORD) truncation. -/
def dw (x : Nat) : Nat := x % 0x100000000

/-- Load a 2-byte little-endian word (ld_word in ff.c): rv = ptr[1];
rv = rv << 8 | ptr[0].  Bytes are below 0x100, so the shift-or is the
base-0x100 recombination written here. -/
def ld_word (buf : Nat → Nat) (i : Nat) : Nat :=
  buf (i + 1) * 0x100 + buf i

/-- Load a 4-byte little-endian word (ld_dword in ff.c). -/
def ld_dword (buf : Nat → Nat) (i : Nat) : Nat :=
  ((buf (i + 3) * 0x100 + buf (i + 2)) * 0x100 + buf (i + 1)) * 0x100 + buf i

/-- Store a 4-byte word in little-endian (st_dword in ff.c): each
*ptr++ = (BYTE)val; val >>= 8 step writes val % 0x100 and divides by 0x100. -/
def st_dword (buf : Nat → Nat) (i v : Nat) : Nat → Nat :=
  Function.update
    (Function.update
      (Function.update
        (Function.update buf i (v % 0x100))
        (i + 1) (v / 0x100 % 0x100))
      (i + 2) (v / 0x10000 % 0x100))
    (i + 3) (v / 0x1000000 % 0x100)

/-- A buffer all of whose cells hold bytes. -/
def ByteBuf (buf : Nat → Nat) : Prop := ∀ i, buf i < 0x100

/-- FAT32 branch of get_fat (ff.c line 1076): the FAT is addressed as a plain
DWORD array and the upper 4 bits are masked out.  The move_window plus
in-sector offset arithmetic of the source presents exactly the byte at
offset clst * 4 from fatbase, so the FAT region is modelled as one byte
buffer indexed from fatbase. -/
def get_fat32 (fat : Nat → Nat) (clst : Nat) : Nat :=
  ld_dword fat (clst * 4) &&& 0x0FFFFFFF

/-- FAT32 branch of put_fat (ff.c lines 1136-1137):
val = (val & 0x0FFFFFFF) | (ld_dword(..) & 0xF0000000); st_dword(.., val). -/
def put_fat32 (fat : Nat → Nat) (clst val : Nat) : Nat → Nat :=
  st_dword fat (clst * 4) ((val &&& 0x0FFFFFFF) ||| (ld_dword fat (clst * 4) &&& 0xF0000000))

theorem ld_dword_lt (buf : Nat → Nat) (h : ByteBuf buf) (i : Nat) :
    ld_dword buf i < 0x100000000 := by
  unfold ld_dword
  have h0 := h i
  have h1 := h (i + 1)
  have h2 := h (i + 2)
  have h3 := h (i + 3)
  omega

/-- Reading back a little-endian store returns the value truncated to 32
bits. -/
theorem ld_st_dword (buf : Nat → Nat) (i v : Nat) :
    ld_dword (st_dword buf i v) i = dw v := by
  unfold ld_dword st_dword dw
  rw [Function.update_same]
  rw [Function.update_noteq (by omega), Function.update_same]
  rw [Function.update_noteq (by omega), Function.update_noteq (by omega),
    Function.update_same]
  rw [Function.update_noteq (by omega), Function.update_noteq (by omega),
    Function.update_noteq (by omega), Function.update_same]
  omega

theorem testBit_high_low (h l : Nat) (hl : l < 2 ^ 28) (i : Nat) :
    (h * 2 ^ 28 + l).testBit i =
      if i < 28 then l.testBit i else h.testBit (i - 28) := by
  have e28 : (2 : Nat) ^ 28 = 268435456 := by norm_num
  rcases Nat.lt_or_ge i 28 with hi | hi
  · have hmod : (h * 2 ^ 28 + l) % 2 ^ 28 = l := by
      rw [e28] at hl ⊢; omega
    have h2 := Nat.testBit_mod_two_pow (h * 2 ^ 28 + l) 28 i
    rw [hmod] at h2
    rw [decide_eq_true hi, Bool.true_and] at h2
    simp only [if_pos hi]
    exact h2.symm
  · have hdiv : (h * 2 ^ 28 + l) >>> 28 = h := by
      rw [Nat.shiftRight_eq_div_pow, e28]
      rw [e28] at hl
      omega
    have hsr : ((h * 2 ^ 28 + l) >>> 28).testBit (i - 28) =
        (h * 2 ^ 28 + l).testBit (28 + (i - 28)) := Nat.testBit_shiftRight _
    rw [hdiv] at hsr
    have h28i : 28 + (i - 28) = i := by omega
    rw [h28i] at hsr
    simp only [if_neg (by omega : ¬ i < 28)]
    exact hsr.symm

theorem testBit_fifteen (j : Nat) : Nat.testBit 15 j = decide (j < 4) := by
  rcases Nat.lt_or_ge j 4 with hj | hj
  · interval_cases j <;> decide
  · have : Nat.testBit 15 j = false := Nat.testBit_lt_two_pow (by
      calc (15 : Nat) < 2 ^ 4 := by norm_num
      _ ≤ 2 ^ j := Nat.pow_le_pow_right (by norm_num) hj)
    simp [this, Nat.not_lt.mpr hj]

theorem mask_low28 (v : Nat) : v &&& 0x0FFFFFFF = v % 2 ^ 28 := by
  have : (0x0FFFFFFF : Nat) = 2 ^ 28 - 1 := by norm_num
  rw [this, Nat.and_pow_two_sub_one_eq_mod]

theorem mask_high4 (c : Nat) (hc : c < 0x100000000) :
    c &&& 0xF0000000 = c / 2 ^ 28 * 2 ^ 28 := by
  have e28 : (2 : Nat) ^ 28 = 268435456 := by norm_num
  have hdecomp : c = c / 2 ^ 28 * 2 ^ 28 + c % 2 ^ 28 := by
    rw [e28]; omega
  have hhi : c / 2 ^ 28 < 16 := by rw [e28]; omega
  have hconst : (0xF0000000 : Nat) = 15 * 2 ^ 28 + 0 := by norm_num
  apply Nat.eq_of_testBit_eq
  intro i
  rw [Nat.testBit_and, hconst,
    testBit_high_low 15 0 (by norm_num) i]
  conv_lhs => rw [hdecomp]
  rw [testBit_high_low _ _ (Nat.mod_lt _ (by positivity)) i]
  have hrhs : (c / 2 ^ 28 * 2 ^ 28).testBit i =
      if i < 28 then Nat.testBit 0 i else (c / 2 ^ 28).testBit (i - 28) := by
    have := testBit_high_low (c / 2 ^ 28) 0 (by positivity) i
    simpa using this
  rw [hrhs]
  rcases Nat.lt_or_ge i 28 with hi | hi
  · simp [hi]
  · simp only [if_neg (by omega : ¬ i < 28)]
    rw [testBit_fifteen]
    rcases Nat.lt_or_ge (i - 28) 4 with hj | hj
    · simp [hj]
    · have hfb : (c / 2 ^ 28).testBit (i - 28) = false := Nat.testBit_lt_two_pow (by
        calc c / 2 ^ 28 < 16 := hhi
        _ = 2 ^ 4 := by norm_num
        _ ≤ 2 ^ (i - 28) := Nat.pow_le_pow_right (by norm_num) hj)
      have hj4 : decide (i - 28 < 4) = false := by
        simp only [decide_eq_false_iff_not]
        omega
      rw [hfb, hj4, Bool.and_false]

theorem or_low_high (lo hi : Nat) (hlo : lo < 2 ^ 28) :
    lo ||| hi * 2 ^ 28 = lo + hi * 2 ^ 28 := by
  apply Nat.eq_of_testBit_eq
  intro i
  rw [Nat.testBit_or]
  have hsum : (hi * 2 ^ 28 + lo).testBit i =
      if i < 28 then lo.testBit i else hi.testBit (i - 28) :=
    testBit_high_low hi lo hlo i
  have hmul : (hi * 2 ^ 28).testBit i =
      if i < 28 then Nat.testBit 0 i else hi.testBit (i - 28) := by
    have := testBit_high_low hi 0 (by positivity) i
    simpa using this
  rw [Nat.add_comm lo (hi * 2 ^ 28), hsum, hmul]
  rcases Nat.lt_or_ge i 28 with hi28 | hi28
  · simp [hi28]
  · have hl : lo.testBit i = false := Nat.testBit_lt_two_pow
      (lt_of_lt_of_le hlo (Nat.pow_le_pow_right (by norm_num) hi28))
    simp [if_neg (by omega : ¬ i < 28), hl]

/-- Claim C4: on a FAT32 volume put_fat(c, v) stores only the low 28 bits of
v, preserves the top four bits of the 32-bit FAT cell, and get_fat(c)
returns the cell with the top four bits masked off. -/
theorem c4_fat32_high_nibble_preserved (fat : Nat → Nat) (clst v : Nat)
    (hb : ByteBuf fat) :
    (ld_dword (put_fat32 fat clst v) (clst * 4)) % 2 ^ 28 = v % 2 ^ 28 ∧
    (ld_dword (put_fat32 fat clst v) (clst * 4)) / 2 ^ 28 =
      (ld_dword fat (clst * 4)) / 2 ^ 28 ∧
    get_fat32 fat clst = (ld_dword fat (clst * 4)) % 2 ^ 28 ∧
    get_fat32 (put_fat32 fat clst v) clst = v % 2 ^ 28 := by
  have e28 : (2 : Nat) ^ 28 = 268435456 := by norm_num
  have hcell := ld_dword_lt fat hb (clst * 4)
  have hstored : (v &&& 0x0FFFFFFF) ||| (ld_dword fat (clst * 4) &&& 0xF0000000) =
      v % 2 ^ 28 + ld_dword fat (clst * 4) / 2 ^ 28 * 2 ^ 28 := by
    rw [mask_low28, mask_high4 _ hcell, or_low_high _ _ (Nat.mod_lt _ (by positivity))]
  have hlt : v % 2 ^ 28 + ld_dword fat (clst * 4) / 2 ^ 28 * 2 ^ 28 < 0x100000000 := by
    have h1 : v % 2 ^ 28 < 2 ^ 28 := Nat.mod_lt _ (by positivity)
    rw [e28] at h1 ⊢
    omega
  have hld : ld_dword (put_fat32 fat clst v) (clst * 4) =
      v % 2 ^ 28 + ld_dword fat (clst * 4) / 2 ^ 28 * 2 ^ 28 := by
    unfold put_fat32
    rw [ld_st_dword, hstored]
    unfold dw
    exact Nat.mod_eq_of_lt hlt
  refine ⟨?_, ?_, ?_, ?_⟩
  · rw [hld, Nat.add_mul_mod_self_right, Nat.mod_mod_of_dvd _ dvd_rfl]
  · rw [hld]
    have h1 : v % 2 ^ 28 < 2 ^ 28 := Nat.mod_lt _ (by positivity)
    rw [Nat.add_mul_div_right _ _ (by positivity : (0:Nat) < 2 ^ 28),
      Nat.div_eq_of_lt h1, Nat.zero_add]
  · unfold get_fat32
    rw [mask_low28]
  · unfold get_fat32
    rw [mask_low28, hld, Nat.add_mul_mod_self_right, Nat.mod_mod_of_dvd _ dvd_rfl]

theorem c4_fat32_high_nibble_preserved_witness :
    (ld_dword (put_fat32 (fun _ => 0xAB) 5 0x12345678) (5 * 4)) % 2 ^ 28 =
      0x12345678 % 2 ^ 28 ∧
    (ld_dword (put_fat32 (fun _ => 0xAB) 5 0x12345678) (5 * 4)) / 2 ^ 28 =
      (ld_dword (fun _ => 0xAB) (5 * 4)) / 2 ^ 28 ∧
    get_fat32 (fun _ => 0xAB) 5 = (ld_dword (fun _ => 0xAB) (5 * 4)) % 2 ^ 28 ∧
    get_fat32 (put_fat32 (fun _ => 0xAB) 5 0x12345678) 5 = 0x12345678 % 2 ^ 28 :=
  c4_fat32_high_nibble_preserved (fun _ => 0xAB) 5 0x12345678
    (fun _ => by norm_num)

/-! ## Volume mount: FAT sub-type determination (mount_volume, ff.c 2873-2922) -/

/-- Modelled from the spec: MAX_FAT12 is defined in ff.h, which is not part
of src/; the spec fixes the FAT12 bound as nclst less than or equal to
4084. -/
def MAX_FAT12 : Nat := 4084

/-- Modelled from the spec: MAX_FAT16 is defined in ff.h, which is not part
of src/; the spec fixes the FAT16 bound as nclst less than or equal to
65524. -/
def MAX_FAT16 : Nat := 65524

/-- Modelled from the spec: MAX_FAT32 is defined in ff.h, which is not part
of src/; the spec classifies every remaining cluster count as FAT32, so the
modelled bound is the DWORD maximum and the fmt == 0 fall-through of the
source is unreachable. -/
def MAX_FAT32 : Nat := 0xFFFFFFFF

/-- BPB fields of the boot sector as loaded by mount_volume (each already
decoded by ld_word / ld_dword / direct byte access). -/
structure BPB where
  bytsPerSec : Nat
  fatSz16 : Nat
  fatSz32 : Nat
  numFats : Nat
  secPerClus : Nat
  rootEntCnt : Nat
  totSec16 : Nat
  totSec32 : Nat
  rsvdSecCnt : Nat
  fsVer32 : Nat
  deriving DecidableEq, Repr

/-- Geometry fields of the FATFS object that mount_volume derives. -/
structure MountGeom where
  fsize : Nat
  n_fats : Nat
  csize : Nat
  n_rootdir : Nat
  nclst : Nat
  n_fatent : Nat
  fs_type : Nat
  deriving DecidableEq, Repr

/-- FAT sub-type cascade of mount_volume (ff.c 2900-2903): fmt = 0, then
overwritten by the FAT32 / FAT16 / FAT12 tests in that order. -/
def determine_fmt (nclst : Nat) : Nat :=
  let fmt0 := 0
  let fmt1 := if nclst ≤ MAX_FAT32 then FS_FAT32 else fmt0
  let fmt2 := if nclst ≤ MAX_FAT16 then FS_FAT16 else fmt1
  if nclst ≤ MAX_FAT12 then FS_FAT12 else fmt2

/-- Number of sectors per FAT, ff.c 2875-2876: BPB_FATSz16, or BPB_FATSz32
when the 16-bit field is zero. -/
def m_fasize0 (b : BPB) : Nat :=
  if b.fatSz16 = 0 then b.fatSz32 else b.fatSz16

/-- Number of sectors of the whole FAT area, ff.c 2881: fasize * n_fats. -/
def m_fasize (b : BPB) : Nat := dw (m_fasize0 b * b.numFats)

/-- Total sector count, ff.c 2889-2890: BPB_TotSec16, or BPB_TotSec32 when
the 16-bit field is zero. -/
def m_tsect (b : BPB) : Nat :=
  if b.totSec16 = 0 then b.totSec32 else b.totSec16

/-- System area size, ff.c 2896: reserved + FAT area + root directory. -/
def m_sysect (ss : Nat) (b : BPB) : Nat :=
  dw (b.rsvdSecCnt + m_fasize b + b.rootEntCnt / (ss / 32))

/-- Cluster count, ff.c 2898: nclst = (tsect - sysect) / csize. -/
def m_nclst (ss : Nat) (b : BPB) : Nat :=
  (m_tsect b - m_sysect ss b) / b.secPerClus

/-- Needed FAT size in bytes for the non-FAT32 sub-types, ff.c 2919-2920. -/
def m_szbfat (ss : Nat) (b : BPB) : Nat :=
  if determine_fmt (m_nclst ss b) = FS_FAT16 then dw ((m_nclst ss b + 2) * 2)
  else dw ((m_nclst ss b + 2) * 3 / 2) + ((m_nclst ss b + 2) &&& 1)

/-- Geometry part of mount_volume (ff.c 2873-2922): BPB validation, cluster
count and FAT sub-type.  All DWORD arithmetic that can exceed 32 bits is
truncated with dw, as in the source. -/
def mount_volume_geom (ss : Nat) (b : BPB) : Except FRESULT MountGeom :=
  if b.bytsPerSec ≠ ss then .error .noFilesystem
  else if b.numFats ≠ 1 ∧ b.numFats ≠ 2 then .error .noFilesystem
  else if b.secPerClus = 0 ∨ b.secPerClus &&& (b.secPerClus - 1) ≠ 0 then
    .error .noFilesystem
  else if b.rootEntCnt % (ss / 32) ≠ 0 then .error .noFilesystem
  else if b.rsvdSecCnt = 0 then .error .noFilesystem
  else if m_tsect b < m_sysect ss b then .error .noFilesystem
  else if m_nclst ss b = 0 then .error .noFilesystem
  else if determine_fmt (m_nclst ss b) = 0 then .error .noFilesystem
  else if determine_fmt (m_nclst ss b) = FS_FAT32 then
    if b.fsVer32 ≠ 0 then .error .noFilesystem
    else if b.rootEntCnt ≠ 0 then .error .noFilesystem
    else if m_fasize0 b < (dw ((m_nclst ss b + 2) * 4) + (ss - 1)) / ss then
      .error .noFilesystem
    else .ok (MountGeom.mk (m_fasize0 b) b.numFats b.secPerClus b.rootEntCnt
      (m_nclst ss b) (m_nclst ss b + 2) (determine_fmt (m_nclst ss b)))
  else if b.rootEntCnt = 0 then .error .noFilesystem
  else if m_fasize0 b < (m_szbfat ss b + (ss - 1)) / ss then .error .noFilesystem
  else .ok (MountGeom.mk (m_fasize0 b) b.numFats b.secPerClus b.rootEntCnt
    (m_nclst ss b) (m_nclst ss b + 2) (determine_fmt (m_nclst ss b)))

theorem determine_fmt_eq (nclst : Nat) (h32 : nclst ≤ 0xFFFFFFFF) :
    (determine_fmt nclst = FS_FAT12 ↔ nclst ≤ 4084) ∧
    (determine_fmt nclst = FS_FAT16 ↔ 4084 < nclst ∧ nclst ≤ 65524) ∧
    (determine_fmt nclst = FS_FAT32 ↔ 65524 < nclst) := by
  unfold determine_fmt MAX_FAT12 MAX_FAT16 MAX_FAT32 FS_FAT12 FS_FAT16 FS_FAT32
  split_ifs with h1 h2 h3 <;> norm_num <;> omega

theorem m_tsect_lt (b : BPB) (hw16 : b.totSec16 < 0x10000)
    (hw32 : b.totSec32 < 0x100000000) : m_tsect b < 0x100000000 := by
  unfold m_tsect
  split <;> omega

theorem m_nclst_le (ss : Nat) (b : BPB) (hw16 : b.totSec16 < 0x10000)
    (hw32 : b.totSec32 < 0x100000000) : m_nclst ss b ≤ 0xFFFFFFFF := by
  have ht := m_tsect_lt b hw16 hw32
  unfold m_nclst
  exact le_trans (Nat.div_le_self _ _) (le_trans (Nat.sub_le _ _) (by omega))

theorem mount_geom_fields (ss : Nat) (b : BPB) (g : MountGeom)
    (hw16 : b.totSec16 < 0x10000) (hw32 : b.totSec32 < 0x100000000)
    (h : mount_volume_geom ss b = .ok g) :
    g.fs_type = determine_fmt g.nclst ∧ 0 < g.nclst ∧ g.nclst ≤ 0xFFFFFFFF := by
  unfold mount_volume_geom at h
  have c1 : ¬ b.bytsPerSec ≠ ss := fun hc => by
    rw [if_pos hc] at h; exact Except.noConfusion h
  rw [if_neg c1] at h
  have c2 : ¬ (b.numFats ≠ 1 ∧ b.numFats ≠ 2) := fun hc => by
    rw [if_pos hc] at h; exact Except.noConfusion h
  rw [if_neg c2] at h
  have c3 : ¬ (b.secPerClus = 0 ∨ b.secPerClus &&& (b.secPerClus - 1) ≠ 0) := fun hc => by
    rw [if_pos hc] at h; exact Except.noConfusion h
  rw [if_neg c3] at h
  have c4 : ¬ b.rootEntCnt % (ss / 32) ≠ 0 := fun hc => by
    rw [if_pos hc] at h; exact Except.noConfusion h
  rw [if_neg c4] at h
  have c5 : ¬ b.rsvdSecCnt = 0 := fun hc => by
    rw [if_pos hc] at h; exact Except.noConfusion h
  rw [if_neg c5] at h
  have c6 : ¬ m_tsect b < m_sysect ss b := fun hc => by
    rw [if_pos hc] at h; exact Except.noConfusion h
  rw [if_neg c6] at h
  have c7 : ¬ m_nclst ss b = 0 := fun hc => by
    rw [if_pos hc] at h; exact Except.noConfusion h
  rw [if_neg c7] at h
  have c8 : ¬ determine_fmt (m_nclst ss b) = 0 := fun hc => by
    rw [if_pos hc] at h; exact Except.noConfusion h
  rw [if_neg c8] at h
  by_cases cF : determine_fmt (m_nclst ss b) = FS_FAT32
  · rw [if_pos cF] at h
    have d1 : ¬ b.fsVer32 ≠ 0 := fun hc => by
      rw [if_pos hc] at h; exact Except.noConfusion h
    rw [if_neg d1] at h
    have d2 : ¬ b.rootEntCnt ≠ 0 := fun hc => by
      rw [if_pos hc] at h; exact Except.noConfusion h
    rw [if_neg d2] at h
    have d3 : ¬ m_fasize0 b < (dw ((m_nclst ss b + 2) * 4) + (ss - 1)) / ss := fun hc => by
      rw [if_pos hc] at h; exact Except.noConfusion h
    rw [if_neg d3] at h
    injection h with h2
    subst h2
    exact ⟨rfl, Nat.pos_of_ne_zero c7, m_nclst_le ss b hw16 hw32⟩
  · rw [if_neg cF] at h
    have d4 : ¬ b.rootEntCnt = 0 := fun hc => by
      rw [if_pos hc] at h; exact Except.noConfusion h
    rw [if_neg d4] at h
    have d5 : ¬ m_fasize0 b < (m_szbfat ss b + (ss - 1)) / ss := fun hc => by
      rw [if_pos hc] at h; exact Except.noConfusion h
    rw [if_neg d5] at h
    injection h with h2
    subst h2
    exact ⟨rfl, Nat.pos_of_ne_zero c7, m_nclst_le ss b hw16 hw32⟩

/-- Claim C1: after computing nclst = (total sectors - system sectors) /
csize, the mount classifies the volume as FAT12 when nclst is at most 4084,
as FAT16 when 4084 < nclst and nclst is at most 65524, and as FAT32
otherwise. -/
theorem c1_mount_subtype_classification (ss : Nat) (b : BPB) (g : MountGeom)
    (hw16 : b.totSec16 < 0x10000) (hw32 : b.totSec32 < 0x100000000)
    (h : mount_volume_geom ss b = .ok g) :
    (g.fs_type = FS_FAT12 ↔ g.nclst ≤ 4084) ∧
    (g.fs_type = FS_FAT16 ↔ 4084 < g.nclst ∧ g.nclst ≤ 65524) ∧
    (g.fs_type = FS_FAT32 ↔ 65524 < g.nclst) := by
  obtain ⟨hft, hpos, hb⟩ := mount_geom_fields ss b g hw16 hw32 h
  rw [hft]
  exact determine_fmt_eq g.nclst hb

/-- BPB of a small FAT12 volume used to instantiate the mount theorems:
512-byte sectors, 1 sector per cluster, 1 FAT of 1 sector, 16 root entries,
103 sectors total, 1 reserved sector. -/
def exampleBPB : BPB :=
  BPB.mk 512 1 0 1 1 16 103 0 1 0

/-- Geometry that mount_volume derives from exampleBPB: nclst = 100, FAT12. -/
def exampleGeom : MountGeom :=
  MountGeom.mk 1 1 1 16 100 102 FS_FAT12

theorem c1_mount_subtype_classification_witness :
    (exampleGeom.fs_type = FS_FAT12 ↔ exampleGeom.nclst ≤ 4084) ∧
    (exampleGeom.fs_type = FS_FAT16 ↔
      4084 < exampleGeom.nclst ∧ exampleGeom.nclst ≤ 65524) ∧
    (exampleGeom.fs_type = FS_FAT32 ↔ 65524 < exampleGeom.nclst) :=
  c1_mount_subtype_classification 512 exampleBPB exampleGeom (by decide)
    (by decide) rfl

/-! ## Open-file registry (chk_share / inc_share / dec_share, ff.c 768-856) -/

/-- One slot of the open-object table (FILESEM, ff.c 196-201): fs is the
owning volume, with 0 modelling the NULL pointer of a blank entry; clu and
ofs identify the object; ctr is the open counter. -/
structure FILESEM where
  fs : Nat
  clu : Nat
  ofs : Nat
  ctr : Nat
  deriving DecidableEq, Repr

/-- Identification triple of the object a DIR handle points at, as the
sharing functions read it: (dp->obj.fs, dp->obj.sclust, dp->dptr). -/
structure ObjId where
  fs : Nat
  sclust : Nat
  dptr : Nat
  deriving DecidableEq, Repr

/-- Match test of the search loops (ff.c 779-781 and 813-815). -/
def shareMatch (obj : ObjId) (e : FILESEM) : Bool :=
  e.fs == obj.fs && e.clu == obj.sclust && e.ofs == obj.dptr

/-- Search loop of chk_share (ff.c 777-785): only non-blank entries are
compared; the first matching entry is returned. -/
def chkFind (obj : ObjId) : List FILESEM → Option FILESEM
  | [] => none
  | e :: rest => if e.fs ≠ 0 ∧ shareMatch obj e then some e else chkFind obj rest

/-- chk_share (ff.c 768-792).  acc is 0 for a read open, 1 for a write open,
2 for delete or rename. -/
def chk_share (files : List FILESEM) (obj : ObjId) (acc : Nat) : FRESULT :=
  match chkFind obj files with
  | some e => if acc ≠ 0 ∨ e.ctr = 0x100 then FRESULT.locked else FRESULT.ok
  | none =>
      if (¬ files.any (fun e => e.fs == 0)) ∧ acc ≠ 2 then FRESULT.tooManyOpenFiles
      else FRESULT.ok

/-- Search loop of inc_share (ff.c 812-816): index of the first entry that
matches the object.  The source has no blank-entry guard here; a blank
entry has fs == 0 and every caller passes an object with fs ≠ 0, so a blank
entry cannot match. -/
def incFindIdx (obj : ObjId) : List FILESEM → Option Nat
  | [] => none
  | e :: rest =>
      if shareMatch obj e then some 0 else (incFindIdx obj rest).map (fun n => n + 1)

/-- Index of the first blank entry (ff.c 819). -/
def blankIdx : List FILESEM → Option Nat
  | [] => none
  | e :: rest => if e.fs = 0 then some 0 else (blankIdx rest).map (fun n => n + 1)

/-- Counter update step of inc_share (ff.c 827-831): access check, then
ctr := acc ? 0x100 : ctr + 1; the returned index is origin 1, 0 meaning
internal error. -/
def incApply (files : List FILESEM) (i acc : Nat) : Nat × List FILESEM :=
  match files[i]? with
  | none => (0, files)
  | some e =>
      if 1 ≤ acc ∧ e.ctr ≠ 0 then (0, files)
      else (i + 1,
        files.set i (FILESEM.mk e.fs e.clu e.ofs (if acc ≠ 0 then 0x100 else e.ctr + 1)))

/-- inc_share (ff.c 804-832): find the object; when absent, register it in
the first blank entry with ctr = 0; then the counter update step. -/
def inc_share (files : List FILESEM) (obj : ObjId) (acc : Nat) : Nat × List FILESEM :=
  match incFindIdx obj files with
  | some i => incApply files i acc
  | none =>
      match blankIdx files with
      | none => (0, files)
      | some i => incApply (files.set i (FILESEM.mk obj.fs obj.sclust obj.dptr 0)) i acc

/-- Counter update of dec_share (ff.c 844-847): n = ctr; if n == 0x100
then n = 0; if n > 0 then n = n - 1. -/
def decCtr (c : Nat) : Nat :=
  if 0 < (if c = 0x100 then 0 else c) then (if c = 0x100 then 0 else c) - 1
  else (if c = 0x100 then 0 else c)

/-- dec_share (ff.c 835-856), index origin 1: a write-open counter drops to
0, a read-open counter is decremented, and an entry whose counter reaches 0
is freed by zeroing fs. -/
def dec_share (files : List FILESEM) (i : Nat) : FRESULT × List FILESEM :=
  if h : 1 ≤ i ∧ i - 1 < files.length then
    let e := files.get ⟨i - 1, h.2⟩
    (FRESULT.ok,
      files.set (i - 1)
        (FILESEM.mk (if decCtr e.ctr = 0 then 0 else e.fs) e.clu e.ofs (decCtr e.ctr)))
  else (FRESULT.intErr, files)

/-- Registry action of an f_open (ff.c 3332 and 3418): chk_share gates the
open, then inc_share registers it; a zero lockid is FR_INT_ERR. -/
def open_share (files : List FILESEM) (obj : ObjId) (acc : Nat) :
    FRESULT × Nat × List FILESEM :=
  match chk_share files obj acc with
  | FRESULT.ok =>
      let r := inc_share files obj acc
      if r.1 = 0 then (FRESULT.intErr, 0, r.2) else (FRESULT.ok, r.1, r.2)
  | r => (r, 0, files)

/-- Counter-range invariant of the registry: every counter is at most 0x100
and a blank entry has counter 0. -/
def CtrInv (files : List FILESEM) : Prop :=
  ∀ e ∈ files, e.ctr ≤ 0x100 ∧ (e.fs = 0 → e.ctr = 0)

theorem shareMatch_fs (obj : ObjId) (e : FILESEM) (h : shareMatch obj e = true) :
    e.fs = obj.fs := by
  unfold shareMatch at h
  simp only [Bool.and_eq_true, beq_iff_eq] at h
  exact h.1.1

theorem chkFind_eq (obj : ObjId) (hobj : obj.fs ≠ 0) (files : List FILESEM) :
    chkFind obj files =
      match incFindIdx obj files with
      | none => none
      | some i => files[i]? := by
  induction files with
  | nil => rfl
  | cons e rest ih =>
      by_cases hm : shareMatch obj e
      · have hfs : e.fs ≠ 0 := by rw [shareMatch_fs obj e hm]; exact hobj
        simp [chkFind, incFindIdx, hm, hfs]
      · have hcond : ¬ (e.fs ≠ 0 ∧ shareMatch obj e) := by
          intro hc; exact hm hc.2
        simp only [chkFind, if_neg hcond, incFindIdx, if_neg hm, ih]
        cases hidx : incFindIdx obj rest with
        | none => simp
        | some i => simp

theorem incFindIdx_get (obj : ObjId) (files : List FILESEM) (i : Nat)
    (h : incFindIdx obj files = some i) :
    ∃ e, files[i]? = some e ∧ shareMatch obj e = true := by
  induction files generalizing i with
  | nil => exact absurd h (by simp [incFindIdx])
  | cons e rest ih =>
      by_cases hm : shareMatch obj e
      · simp only [incFindIdx, if_pos hm] at h
        injection h with h
        subst h
        exact ⟨e, by simp, hm⟩
      · simp only [incFindIdx, if_neg hm] at h
        cases hidx : incFindIdx obj rest with
        | none => rw [hidx] at h; simp at h
        | some j =>
            rw [hidx] at h
            simp only [Option.map] at h
            injection h with h
            subst h
            obtain ⟨e2, hget, hm2⟩ := ih j hidx
            exact ⟨e2, by simpa using hget, hm2⟩

theorem blankIdx_get (files : List FILESEM) (i : Nat)
    (h : blankIdx files = some i) :
    ∃ e, files[i]? = some e ∧ e.fs = 0 := by
  induction files generalizing i with
  | nil => exact absurd h (by simp [blankIdx])
  | cons e rest ih =>
      by_cases hm : e.fs = 0
      · simp only [blankIdx, if_pos hm] at h
        injection h with h
        subst h
        exact ⟨e, by simp, hm⟩
      · simp only [blankIdx, if_neg hm] at h
        cases hidx : blankIdx rest with
        | none => rw [hidx] at h; simp at h
        | some j =>
            rw [hidx] at h
            simp only [Option.map] at h
            injection h with h
            subst h
            obtain ⟨e2, hget, hm2⟩ := ih j hidx
            exact ⟨e2, by simpa using hget, hm2⟩

theorem CtrInv_set (files : List FILESEM) (i : Nat) (e : FILESEM)
    (hinv : CtrInv files) (he : e.ctr ≤ 0x100 ∧ (e.fs = 0 → e.ctr = 0)) :
    CtrInv (files.set i e) := by
  intro x hx
  rcases List.mem_or_eq_of_mem_set hx with hx2 | hx2
  · exact hinv x hx2
  · subst hx2; exact he

theorem inc_share_found (files : List FILESEM) (obj : ObjId) (i : Nat)
    (e : FILESEM) (hidx : incFindIdx obj files = some i)
    (hget : files[i]? = some e) :
    inc_share files obj 0 =
      (i + 1, files.set i (FILESEM.mk e.fs e.clu e.ofs (e.ctr + 1))) := by
  unfold inc_share incApply
  simp only [hidx, hget]
  simp

theorem inc_share_fresh (files : List FILESEM) (obj : ObjId) (acc j : Nat)
    (hidx : incFindIdx obj files = none) (hblank : blankIdx files = some j)
    (hlen : j < files.length) :
    inc_share files obj acc =
      (j + 1, files.set j
        (FILESEM.mk obj.fs obj.sclust obj.dptr (if acc ≠ 0 then 0x100 else 1))) := by
  unfold inc_share incApply
  have hget2 : (files.set j (FILESEM.mk obj.fs obj.sclust obj.dptr 0))[j]? =
      some (FILESEM.mk obj.fs obj.sclust obj.dptr 0) := by
    rw [List.getElem?_set_self (by simpa using hlen)]
  simp only [hidx, hblank, hget2]
  simp [List.set_set]

theorem getElem?_length {α : Type} (l : List α) (i : Nat) (a : α)
    (h : l[i]? = some a) : i < l.length := by
  by_contra hc
  rw [List.getElem?_eq_none (by omega)] at h
  exact Option.noConfusion h

theorem chkFind_of_incFindIdx (files : List FILESEM) (obj : ObjId)
    (hobj : obj.fs ≠ 0) (i : Nat) (e : FILESEM)
    (hidx : incFindIdx obj files = some i) (hget : files[i]? = some e) :
    chkFind obj files = some e := by
  rw [chkFind_eq obj hobj files]
  simp only [hidx]
  exact hget

theorem decCtr_le (c : Nat) (h : c ≤ 0x100) : decCtr c ≤ 0x100 := by
  unfold decCtr
  split <;> split <;> omega

theorem CtrInv_open (files : List FILESEM) (obj : ObjId) (acc : Nat)
    (hobj : obj.fs ≠ 0) (hinv : CtrInv files) :
    CtrInv (open_share files obj acc).2.2 := by
  unfold open_share
  cases hchk : chk_share files obj acc with
  | ok =>
      cases hidx : incFindIdx obj files with
      | some i =>
          obtain ⟨e, hget, hm⟩ := incFindIdx_get obj files i hidx
          have hcf := chkFind_of_incFindIdx files obj hobj i e hidx hget
          simp only [chk_share, hcf] at hchk
          have hcond : ¬ (acc ≠ 0 ∨ e.ctr = 0x100) := by
            intro hc
            rw [if_pos hc] at hchk
            exact FRESULT.noConfusion hchk
          push_neg at hcond
          obtain ⟨hacc0, hctr⟩ := hcond
          subst hacc0
          rw [inc_share_found files obj i e hidx hget]
          have he := hinv e (List.getElem?_mem hget)
          have hle := he.1
          simp only [if_neg (by omega : ¬ (i + 1 = 0))]
          apply CtrInv_set files i _ hinv
          constructor
          · show e.ctr + 1 ≤ 0x100
            omega
          · intro hfs
            have hfs2 : e.fs = 0 := hfs
            rw [shareMatch_fs obj e hm] at hfs2
            exact absurd hfs2 hobj
      | none =>
          cases hblank : blankIdx files with
          | none =>
              have hval : inc_share files obj acc = (0, files) := by
                unfold inc_share
                rw [hidx, hblank]
              rw [hval]
              exact hinv
          | some j =>
              obtain ⟨eb, hgetb, hfsb⟩ := blankIdx_get files j hblank
              have hlen := getElem?_length files j eb hgetb
              rw [inc_share_fresh files obj acc j hidx hblank hlen]
              simp only [if_neg (by omega : ¬ (j + 1 = 0))]
              apply CtrInv_set files j _ hinv
              constructor
              · show (if acc ≠ 0 then 0x100 else 1) ≤ 0x100
                split <;> omega
              · intro hfs
                have hfs2 : obj.fs = 0 := hfs
                exact absurd hfs2 hobj
  | _ => exact hinv

theorem CtrInv_dec (files : List FILESEM) (i : Nat) (hinv : CtrInv files) :
    CtrInv (dec_share files i).2 := by
  unfold dec_share
  split
  · rename_i h
    have he := hinv (files.get ⟨i - 1, h.2⟩) (List.get_mem files (i - 1) h.2)
    apply CtrInv_set files (i - 1) _ hinv
    revert he
    generalize files.get ⟨i - 1, h.2⟩ = e
    intro he
    constructor
    · show decCtr e.ctr ≤ 0x100
      exact decCtr_le e.ctr he.1
    · intro hfs
      have hfs2 : (if decCtr e.ctr = 0 then 0 else e.fs) = 0 := hfs
      show decCtr e.ctr = 0
      by_cases hz : decCtr e.ctr = 0
      · exact hz
      · rw [if_neg hz] at hfs2
        have hc0 := he.2 hfs2
        rw [hc0] at hz
        exact absurd rfl hz
  · exact hinv

/-- Counterexample to claim C6 as stated: with one registry entry already
holding 0xFF readers, a further read open is admitted by chk_share and
inc_share raises the counter to 0x100, exceeding the claimed 0xFF bound for
readers and aliasing the exclusive-writer mark. -/
theorem c6_counterexample :
    open_share [FILESEM.mk 1 5 64 0xFF] (ObjId.mk 1 5 64) 0 =
      (FRESULT.ok, 1, [FILESEM.mk 1 5 64 0x100]) ∧ ¬ (0x100 : Nat) ≤ 0xFF := by
  constructor
  · rfl
  · decide

/-- Claim C6 (amended): a READ open requires the object not to be marked
exclusively open (counter 0x100) and increments the counter; a WRITE open
requires the object absent from the registry and sets the counter to 0x100;
every counter stays in the range 0 .. 0x100 (with 0 exactly on blank
entries) after every open and close.  A READ open is however not capped at
0xFF: the 256th concurrent reader sets the counter to 0x100. -/
theorem c6_registry_counter_discipline (files : List FILESEM) (obj : ObjId)
    (hobj : obj.fs ≠ 0) (hinv : CtrInv files) :
    (∀ e, chkFind obj files = some e → chk_share files obj 0 = FRESULT.ok →
      e.ctr ≠ 0x100) ∧
    (chk_share files obj 1 = FRESULT.ok → chkFind obj files = none) ∧
    (∀ i fs2, open_share files obj 1 = (FRESULT.ok, i, fs2) →
      ∃ e, fs2[i - 1]? = some e ∧ e.ctr = 0x100) ∧
    (∀ acc, CtrInv (open_share files obj acc).2.2) ∧
    (∀ i, CtrInv (dec_share files i).2) := by
  refine ⟨?_, ?_, ?_, ?_, ?_⟩
  · intro e hf hok hctr
    simp only [chk_share, hf] at hok
    rw [if_pos (Or.inr hctr)] at hok
    exact FRESULT.noConfusion hok
  · intro hok
    cases hf : chkFind obj files with
    | none => rfl
    | some e =>
        simp only [chk_share, hf] at hok
        rw [if_pos (Or.inl (by omega : (1 : Nat) ≠ 0))] at hok
        exact FRESULT.noConfusion hok
  · intro i fs2 hop
    unfold open_share at hop
    cases hchk : chk_share files obj 1 with
    | ok =>
        rw [hchk] at hop
        cases hidx : incFindIdx obj files with
        | some k =>
            obtain ⟨e, hget, hm⟩ := incFindIdx_get obj files k hidx
            have hcf := chkFind_of_incFindIdx files obj hobj k e hidx hget
            simp only [chk_share, hcf] at hchk
            rw [if_pos (Or.inl (by omega : (1 : Nat) ≠ 0))] at hchk
            exact FRESULT.noConfusion hchk
        | none =>
            cases hblank : blankIdx files with
            | none =>
                simp only [inc_share, hidx, hblank] at hop
                simp at hop
            | some j =>
                obtain ⟨eb, hgetb, hfsb⟩ := blankIdx_get files j hblank
                have hlen := getElem?_length files j eb hgetb
                rw [inc_share_fresh files obj 1 j hidx hblank hlen] at hop
                simp only [if_neg (by omega : ¬ (j + 1 = 0))] at hop
                injection hop with hr hop2
                injection hop2 with hi hfs2
                subst hi
                subst hfs2
                refine ⟨FILESEM.mk obj.fs obj.sclust obj.dptr
                  (if (1 : Nat) ≠ 0 then 0x100 else 1), ?_, ?_⟩
                · have hjj : j + 1 - 1 = j := by omega
                  rw [hjj, List.getElem?_set_self (by simpa using hlen)]
                · simp
    | _ =>
        rw [hchk] at hop
        injection hop with hr hop2
        exact absurd hr.symm (by simp)
  · intro acc
    exact CtrInv_open files obj acc hobj hinv
  · intro i
    exact CtrInv_dec files i hinv

theorem c6_registry_counter_discipline_witness :
    (∀ e, chkFind (ObjId.mk 1 2 3) [] = some e →
      chk_share [] (ObjId.mk 1 2 3) 0 = FRESULT.ok → e.ctr ≠ 0x100) ∧
    (chk_share [] (ObjId.mk 1 2 3) 1 = FRESULT.ok →
      chkFind (ObjId.mk 1 2 3) [] = none) ∧
    (∀ i fs2, open_share [] (ObjId.mk 1 2 3) 1 = (FRESULT.ok, i, fs2) →
      ∃ e, fs2[i - 1]? = some e ∧ e.ctr = 0x100) ∧
    (∀ acc, CtrInv (open_share [] (ObjId.mk 1 2 3) acc).2.2) ∧
    (∀ i, CtrInv (dec_share [] i).2) :=
  c6_registry_counter_discipline [] (ObjId.mk 1 2 3) (by decide)
    (fun e he => absurd he (List.not_mem_nil e))

/-! ## FAT access and chain operations over an abstract FAT map

The byte-level bit packing of the three sub-types is verified above
(get_fat32 / put_fat32); the chain operations below work on the FAT at
cell granularity: FatVol.fat holds, for every in-range cluster, the value
that get_fat returns for it (already masked per sub-type; the disk-error
and reserved conventions 0xFFFFFFFF and 1 are cell values, as in the
source). -/

/-- Volume fields used by the chain operations (FATFS in ff.h). -/
structure FatVol where
  fs_type : Nat
  n_fatent : Nat
  csize : Nat
  ss : Nat
  last_clst : Nat
  free_clst : Nat
  database : Nat
  fat : Nat → Nat

/-- Value mask a put_fat stores for each sub-type (ff.c 1112-1139): FAT12
keeps 12 bits, FAT16 16 bits, FAT32 28 bits. -/
def fatMask (fs_type : Nat) : Nat :=
  if fs_type = FS_FAT12 then 0xFFF
  else if fs_type = FS_FAT16 then 0xFFFF
  else 0x0FFFFFFF

/-- get_end_of_cluster (ff.c 3009-3023). -/
def get_end_of_cluster (fs_type : Nat) : Nat :=
  if fs_type = FS_FAT12 then 0xFFF
  else if fs_type = FS_FAT16 then 0xFFFF
  else if fs_type = FS_FAT32 then 0x0FFFFFFF
  else 0xFFFFFFFF

/-- get_fat (ff.c 1032-1085) at cell granularity: out-of-range clusters
read as 1 (internal error), in-range clusters read their cell. -/
def get_fat_m (v : FatVol) (clst : Nat) : Nat :=
  if clst < 2 ∨ v.n_fatent ≤ clst then 1 else v.fat clst

/-- put_fat (ff.c 1095-1143) at cell granularity: in-range clusters store
the value truncated to the cell width of the sub-type (for FAT32 the upper
four bits of the cell live outside the masked view that get_fat returns);
out-of-range clusters fail with FR_INT_ERR and store nothing. -/
def put_fat_m (v : FatVol) (clst val : Nat) : FRESULT × FatVol :=
  if 2 ≤ clst ∧ clst < v.n_fatent then
    (FRESULT.ok, { v with fat := Function.update v.fat clst (val &&& fatMask v.fs_type) })
  else (FRESULT.intErr, v)

/-- FSInfo update of remove_chain (ff.c 1185-1188): free_clst++ when it is
below n_fatent - 2. -/
def freeIncr (v : FatVol) : FatVol :=
  if v.free_clst < v.n_fatent - 2 then { v with free_clst := v.free_clst + 1 } else v

/-- Loop of remove_chain (ff.c 1176-1210): read the next link, free the
current cluster, update the free count, continue while the link stays in
range.  The fuel argument bounds the iteration count; every well-formed
chain is shorter than n_fatent, the fuel the callers pass. -/
def removeLoop : Nat → FatVol → Nat → FRESULT × FatVol
  | 0, v, _ => (FRESULT.intErr, v)
  | fuel + 1, v, clst =>
      if get_fat_m v clst = 0 then (FRESULT.ok, v)
      else if get_fat_m v clst = 1 then (FRESULT.intErr, v)
      else if get_fat_m v clst = 0xFFFFFFFF then (FRESULT.diskErr, v)
      else
        match put_fat_m v clst 0 with
        | (FRESULT.ok, v1) =>
            if get_fat_m v clst < v.n_fatent then
              removeLoop fuel (freeIncr v1) (get_fat_m v clst)
            else (FRESULT.ok, freeIncr v1)
        | (r, v1) => (r, v1)

/-- remove_chain (ff.c 1153-1213), FF_USE_TRIM == 0 and no virtual
partition. -/
def remove_chain_m (v : FatVol) (clst pclst : Nat) : FRESULT × FatVol :=
  if clst < 2 ∨ v.n_fatent ≤ clst then (FRESULT.intErr, v)
  else if pclst ≠ 0 then
    match put_fat_m v pclst 0xFFFFFFFF with
    | (FRESULT.ok, v1) => removeLoop v.n_fatent v1 clst
    | (r, v1) => (r, v1)
  else removeLoop v.n_fatent v clst

/-- Free-cluster scan loop of create_chain (ff.c 1302-1326), rendered over
the list of candidate clusters it probes in order (ncl = scl+1, scl+2, ...,
wrapping at n_fatent to 2, up to and including scl): the first cluster
whose cell reads 0 is returned; a reserved or failing cell aborts with that
cell value; an exhausted scan (the wrap reaching back to the start) returns
0. -/
def scanList (v : FatVol) : List Nat → Nat
  | [] => 0
  | c :: rest =>
      let cs := get_fat_m v c
      if cs = 0 then c
      else if cs = 1 ∨ cs = 0xFFFFFFFF then cs
      else scanList v rest

/-- Candidate order of the scan loop started at scl: scl+1 .. n_fatent-1,
then (wrapping to 2) 2 .. scl.  For the degenerate start scl = 1 the wrap
test ncl > scl ends the scan, so the candidates are 2 .. n_fatent-1. -/
def scanSeq (n_fatent scl : Nat) : List Nat :=
  if scl = 1 then List.range' 2 (n_fatent - 2)
  else List.range' (scl + 1) (n_fatent - (scl + 1)) ++ List.range' 2 (scl - 1)

/-- Allocation epilogue of create_chain (ff.c 1327-1352): stamp EOC on the
new cluster, link it from the previous one when stretching, update
last_clst and free_clst. -/
def chainFinish (v : FatVol) (clst ncl : Nat) : Nat × FatVol :=
  match put_fat_m v ncl 0xFFFFFFFF with
  | (FRESULT.ok, v1) =>
      match (if clst ≠ 0 then put_fat_m v1 clst ncl else (FRESULT.ok, v1)) with
      | (FRESULT.ok, v2) =>
          (ncl, { v2 with
            last_clst := ncl,
            free_clst := if v2.free_clst ≤ v2.n_fatent - 2 then v2.free_clst - 1
              else v2.free_clst })
      | (FRESULT.diskErr, v2) => (0xFFFFFFFF, v2)
      | (_, v2) => (1, v2)
  | (FRESULT.diskErr, v1) => (0xFFFFFFFF, v1)
  | (_, v1) => (1, v1)

/-- create_chain (ff.c 1222-1355), no virtual partition: 0 means no free
cluster, 1 internal error, 0xFFFFFFFF disk error, otherwise the new
cluster number. -/
def create_chain_m (v : FatVol) (clst : Nat) : Nat × FatVol :=
  if clst = 0 then
    let scl := if v.last_clst = 0 ∨ v.n_fatent ≤ v.last_clst then 1 else v.last_clst
    if v.free_clst = 0 then (0, v)
    else
      let ncl := scanList v (scanSeq v.n_fatent scl)
      if ncl = 0 then (0, v)
      else if ncl = 1 ∨ ncl = 0xFFFFFFFF then (ncl, v)
      else chainFinish v 0 ncl
  else
    let cs := get_fat_m v clst
    if cs < 2 then (1, v)
    else if cs = 0xFFFFFFFF then (cs, v)
    else if cs < v.n_fatent then (cs, v)
    else if v.free_clst = 0 then (0, v)
    else
      let ncl0 := if v.n_fatent ≤ clst + 1 then 2 else clst + 1
      let cs2 := get_fat_m v ncl0
      if cs2 = 1 ∨ cs2 = 0xFFFFFFFF then (cs2, v)
      else if cs2 = 0 then chainFinish v clst ncl0
      else
        let scl := if 2 ≤ v.last_clst ∧ v.last_clst < v.n_fatent then v.last_clst
          else clst
        let ncl := scanList v (scanSeq v.n_fatent scl)
        if ncl = 0 then (0, v)
        else if ncl = 1 ∨ ncl = 0xFFFFFFFF then (ncl, v)
        else chainFinish v clst ncl

theorem get_fat_m_in_range (v : FatVol) (x : Nat) (h2 : 2 ≤ x)
    (hn : x < v.n_fatent) : get_fat_m v x = v.fat x := by
  unfold get_fat_m
  rw [if_neg (by omega)]

theorem eoc_store (t : Nat) : 0xFFFFFFFF &&& fatMask t = fatMask t := by
  unfold fatMask
  split_ifs <;> decide

theorem scanList_no_free (v : FatVol) (l : List Nat)
    (h : ∀ x ∈ l, get_fat_m v x ≠ 0 ∧ get_fat_m v x ≠ 1 ∧
      get_fat_m v x ≠ 0xFFFFFFFF) :
    scanList v l = 0 := by
  induction l with
  | nil => rfl
  | cons c rest ih =>
      obtain ⟨h0, h1, hf⟩ := h c (by simp)
      unfold scanList
      rw [if_neg h0, if_neg (by tauto)]
      exact ih (fun x hx => h x (by simp [hx]))

theorem scanList_first (v : FatVol) (pre : List Nat) (c : Nat) (post : List Nat)
    (hpre : ∀ x ∈ pre, get_fat_m v x ≠ 0 ∧ get_fat_m v x ≠ 1 ∧
      get_fat_m v x ≠ 0xFFFFFFFF)
    (hc : get_fat_m v c = 0) :
    scanList v (pre ++ c :: post) = c := by
  induction pre with
  | nil =>
      unfold scanList
      rw [List.nil_append]
      simp [hc]
  | cons y rest ih =>
      obtain ⟨h0, h1, hf⟩ := hpre y (by simp)
      rw [List.cons_append]
      unfold scanList
      rw [if_neg h0, if_neg (by tauto)]
      exact ih (fun x hx => hpre x (by simp [hx]))

theorem scanSeq_mem (n scl x : Nat) (hscl1 : 1 ≤ scl) (hscln : scl < n)
    (hx : x ∈ scanSeq n scl) : 2 ≤ x ∧ x < n := by
  unfold scanSeq at hx
  by_cases h1 : scl = 1
  · rw [if_pos h1] at hx
    rw [List.mem_range'_1] at hx
    omega
  · rw [if_neg h1, List.mem_append] at hx
    rcases hx with hx | hx <;> rw [List.mem_range'_1] at hx <;> omega

theorem scanSeq_head (n scl : Nat) (hscl : 1 ≤ scl) (hlt : scl + 1 < n) :
    (scanSeq n scl).head? = some (scl + 1) := by
  unfold scanSeq
  by_cases h1 : scl = 1
  · subst h1
    rw [if_pos rfl]
    have : n - 2 = (n - 3) + 1 := by omega
    rw [this, List.range'_succ]
    rfl
  · rw [if_neg h1]
    have : n - (scl + 1) = (n - (scl + 2)) + 1 := by omega
    rw [this, List.range'_succ]
    rfl

/-- Claim C5: create_chain(prev = 0) probes the clusters last_clst + 1,
last_clst + 2, ..., wrapping at n_fatent back to 2 (the order scanSeq);
when the registered free count is nonzero it allocates the first cluster
whose FAT cell reads 0, stamps EOC there, records it in last_clst and
decrements free_clst; and it returns the no-space status 0 when every
probed cell scans as non-free before the scan wraps back to its start. -/
theorem c5_create_chain_new_allocation (v : FatVol)
    (hscl : 1 ≤ v.last_clst ∧ v.last_clst < v.n_fatent)
    (hnf : v.n_fatent < 0xFFFFFFFF)
    (hfree : v.free_clst ≠ 0) :
    (v.last_clst + 1 < v.n_fatent →
      (scanSeq v.n_fatent v.last_clst).head? = some (v.last_clst + 1)) ∧
    (∀ pre c post, scanSeq v.n_fatent v.last_clst = pre ++ c :: post →
      (∀ x ∈ pre, v.fat x ≠ 0 ∧ v.fat x ≠ 1 ∧ v.fat x ≠ 0xFFFFFFFF) →
      v.fat c = 0 →
      (create_chain_m v 0).1 = c ∧
      (create_chain_m v 0).2.fat c = fatMask v.fs_type ∧
      (create_chain_m v 0).2.last_clst = c ∧
      (create_chain_m v 0).2.free_clst =
        (if v.free_clst ≤ v.n_fatent - 2 then v.free_clst - 1 else v.free_clst) ∧
      (∀ x, x ≠ c → (create_chain_m v 0).2.fat x = v.fat x)) ∧
    ((∀ x ∈ scanSeq v.n_fatent v.last_clst,
        v.fat x ≠ 0 ∧ v.fat x ≠ 1 ∧ v.fat x ≠ 0xFFFFFFFF) →
      create_chain_m v 0 = (0, v)) := by
  have hsclv : (if v.last_clst = 0 ∨ v.n_fatent ≤ v.last_clst then 1
      else v.last_clst) = v.last_clst := by
    rw [if_neg (by omega)]
  refine ⟨fun hlt => scanSeq_head v.n_fatent v.last_clst hscl.1 hlt, ?_, ?_⟩
  · intro pre c post hseq hpre hc
    have hcmem : c ∈ scanSeq v.n_fatent v.last_clst := by
      rw [hseq]; simp
    have hcr := scanSeq_mem v.n_fatent v.last_clst c hscl.1 hscl.2 hcmem
    have hpre2 : ∀ x ∈ pre, get_fat_m v x ≠ 0 ∧ get_fat_m v x ≠ 1 ∧
        get_fat_m v x ≠ 0xFFFFFFFF := by
      intro x hx
      have hxmem : x ∈ scanSeq v.n_fatent v.last_clst := by
        rw [hseq]; simp [hx]
      have hxr := scanSeq_mem v.n_fatent v.last_clst x hscl.1 hscl.2 hxmem
      rw [get_fat_m_in_range v x hxr.1 hxr.2]
      exact hpre x hx
    have hscan : scanList v (scanSeq v.n_fatent v.last_clst) = c := by
      rw [hseq]
      exact scanList_first v pre c post hpre2
        (by rw [get_fat_m_in_range v c hcr.1 hcr.2]; exact hc)
    have hput : put_fat_m v c 0xFFFFFFFF =
        (FRESULT.ok, { v with fat := Function.update v.fat c (fatMask v.fs_type) }) := by
      unfold put_fat_m
      rw [if_pos (by omega), eoc_store]
    have hval : create_chain_m v 0 =
        (c, { v with
          fat := Function.update v.fat c (fatMask v.fs_type),
          last_clst := c,
          free_clst := if v.free_clst ≤ v.n_fatent - 2 then v.free_clst - 1
            else v.free_clst }) := by
      unfold create_chain_m
      rw [if_pos rfl, hsclv, if_neg hfree, hscan,
        if_neg (by omega : ¬ c = 0), if_neg (by push_neg; omega)]
      unfold chainFinish
      rw [hput]
      simp
    rw [hval]
    refine ⟨rfl, by simp [Function.update_same], rfl, rfl, ?_⟩
    intro x hx
    simp [Function.update_noteq hx]
  · intro hall
    have hall2 : ∀ x ∈ scanSeq v.n_fatent v.last_clst,
        get_fat_m v x ≠ 0 ∧ get_fat_m v x ≠ 1 ∧ get_fat_m v x ≠ 0xFFFFFFFF := by
      intro x hx
      have hxr := scanSeq_mem v.n_fatent v.last_clst x hscl.1 hscl.2 hx
      rw [get_fat_m_in_range v x hxr.1 hxr.2]
      exact hall x hx
    have hscan := scanList_no_free v _ hall2
    unfold create_chain_m
    rw [if_pos rfl, hsclv, if_neg hfree, hscan, if_pos rfl]

/-- Small FAT32 volume for instantiating the chain theorems: 6 FAT entries,
one single-cluster chain at cluster 2, allocation hint last_clst = 2. -/
def exV5 : FatVol :=
  FatVol.mk FS_FAT32 6 1 512 2 3 100 (fun c => if c = 2 then 0x0FFFFFFF else 0)

theorem c5_create_chain_new_allocation_witness :
    (exV5.last_clst + 1 < exV5.n_fatent →
      (scanSeq exV5.n_fatent exV5.last_clst).head? = some (exV5.last_clst + 1)) ∧
    (∀ pre c post, scanSeq exV5.n_fatent exV5.last_clst = pre ++ c :: post →
      (∀ x ∈ pre, exV5.fat x ≠ 0 ∧ exV5.fat x ≠ 1 ∧ exV5.fat x ≠ 0xFFFFFFFF) →
      exV5.fat c = 0 →
      (create_chain_m exV5 0).1 = c ∧
      (create_chain_m exV5 0).2.fat c = fatMask exV5.fs_type ∧
      (create_chain_m exV5 0).2.last_clst = c ∧
      (create_chain_m exV5 0).2.free_clst =
        (if exV5.free_clst ≤ exV5.n_fatent - 2 then exV5.free_clst - 1
          else exV5.free_clst) ∧
      (∀ x, x ≠ c → (create_chain_m exV5 0).2.fat x = exV5.fat x)) ∧
    ((∀ x ∈ scanSeq exV5.n_fatent exV5.last_clst,
        exV5.fat x ≠ 0 ∧ exV5.fat x ≠ 1 ∧ exV5.fat x ≠ 0xFFFFFFFF) →
      create_chain_m exV5 0 = (0, exV5)) :=
  c5_create_chain_new_allocation exV5 (by constructor <;> decide) (by decide)
    (by decide)

/-! ## Cluster chains and remove_chain -/

/-- A well-formed cluster chain of a volume: the list of clusters from the
start cluster to the cluster whose cell holds an end marker (a value at or
beyond n_fatent that is not the disk-error sentinel), each cell pointing at
the next in-range cluster, no cluster visited twice. -/
inductive Chain (v : FatVol) : Nat → List Nat → Prop where
  | last (c : Nat) (h2 : 2 ≤ c) (hn : c < v.n_fatent)
      (he : v.n_fatent ≤ v.fat c) (hf : v.fat c ≠ 0xFFFFFFFF) : Chain v c [c]
  | cons (c c2 : Nat) (l : List Nat) (h2 : 2 ≤ c) (hn : c < v.n_fatent)
      (hnext : v.fat c = c2) (htl : Chain v c2 l) (hnot : c ∉ l) :
      Chain v c (c :: l)

theorem Chain_head (v : FatVol) (c : Nat) (l : List Nat) (h : Chain v c l) :
    ∃ l2, l = c :: l2 := by
  cases h with
  | last c h2 hn he hf => exact ⟨[], rfl⟩
  | cons c c2 l2 h2 hn hnext htl hnot => exact ⟨l2, rfl⟩

theorem Chain_range (v : FatVol) (c : Nat) (l : List Nat) (h : Chain v c l) :
    2 ≤ c ∧ c < v.n_fatent := by
  cases h with
  | last c h2 hn he hf => exact ⟨h2, hn⟩
  | cons c c2 l2 h2 hn hnext htl hnot => exact ⟨h2, hn⟩

theorem Chain_congr (v v2 : FatVol) (c : Nat) (l : List Nat)
    (h : Chain v c l) (hn : v2.n_fatent = v.n_fatent)
    (hf : ∀ x ∈ l, v2.fat x = v.fat x) : Chain v2 c l := by
  induction h with
  | last c h2 hcn he hff =>
      refine Chain.last c h2 (by omega) ?_ ?_
      · rw [hf c (by simp), hn]; exact he
      · rw [hf c (by simp)]; exact hff
  | cons c c2 l2 h2 hcn hnext htl hnot ih =>
      refine Chain.cons c c2 l2 h2 (by omega) ?_ ?_ hnot
      · rw [hf c (by simp)]; exact hnext
      · exact ih (fun x hx => hf x (by simp [hx]))

theorem freeIncr_fields (v : FatVol) : (freeIncr v).fat = v.fat ∧
    (freeIncr v).n_fatent = v.n_fatent ∧ (freeIncr v).fs_type = v.fs_type ∧
    (freeIncr v).csize = v.csize ∧ (freeIncr v).ss = v.ss ∧
    (freeIncr v).last_clst = v.last_clst := by
  unfold freeIncr
  split <;> exact ⟨rfl, rfl, rfl, rfl, rfl, rfl⟩

theorem put_fat_m_zero (v : FatVol) (c : Nat) (h2 : 2 ≤ c)
    (hn : c < v.n_fatent) :
    put_fat_m v c 0 = (FRESULT.ok, { v with fat := Function.update v.fat c 0 }) := by
  unfold put_fat_m
  rw [if_pos (by omega)]
  have hz : (0 : Nat) &&& fatMask v.fs_type = 0 := Nat.zero_and _
  rw [hz]

theorem Chain_inv (v : FatVol) (c : Nat) (l2 : List Nat)
    (h : Chain v c (c :: l2)) :
    (l2 = [] ∧ 2 ≤ c ∧ c < v.n_fatent ∧ v.n_fatent ≤ v.fat c ∧
      v.fat c ≠ 0xFFFFFFFF) ∨
    (2 ≤ c ∧ c < v.n_fatent ∧ Chain v (v.fat c) l2 ∧ c ∉ l2) := by
  cases h with
  | last _ h2 hn he hf => exact Or.inl ⟨rfl, h2, hn, he, hf⟩
  | cons _ c2 _ h2 hn hnext htl hnot =>
      refine Or.inr ⟨h2, hn, ?_, hnot⟩
      rw [hnext]
      exact htl

theorem removeLoop_frees (l2 : List Nat) (v : FatVol) (c : Nat) (fuel : Nat)
    (hch : Chain v c (c :: l2)) (hnf : v.n_fatent < 0xFFFFFFFF)
    (hfuel : (c :: l2).length ≤ fuel) :
    (removeLoop fuel v c).1 = FRESULT.ok ∧
    (∀ x ∈ c :: l2, (removeLoop fuel v c).2.fat x = 0) ∧
    (∀ x, x ∉ c :: l2 → (removeLoop fuel v c).2.fat x = v.fat x) ∧
    (removeLoop fuel v c).2.n_fatent = v.n_fatent ∧
    (removeLoop fuel v c).2.fs_type = v.fs_type ∧
    (removeLoop fuel v c).2.csize = v.csize ∧
    (removeLoop fuel v c).2.ss = v.ss ∧
    (removeLoop fuel v c).2.last_clst = v.last_clst := by
  induction l2 generalizing v c fuel with
  | nil =>
      rcases Chain_inv v c [] hch with ⟨_, h2, hn, he, hf⟩ | ⟨_, _, htl, _⟩
      · cases fuel with
        | zero => simp at hfuel
        | succ fuel =>
            have hg : get_fat_m v c = v.fat c := get_fat_m_in_range v c h2 hn
            unfold removeLoop
            rw [hg, if_neg (by omega), if_neg (by omega), if_neg hf,
              put_fat_m_zero v c h2 hn]
            simp only []
            rw [if_neg (by omega : ¬ v.fat c < v.n_fatent)]
            obtain ⟨hfat, hnfe, hfst, hcs, hss, hlc⟩ :=
              freeIncr_fields { v with fat := Function.update v.fat c 0 }
            refine ⟨rfl, ?_, ?_, by rw [hnfe], by rw [hfst], by rw [hcs],
              by rw [hss], by rw [hlc]⟩
            · intro x hx
              simp only [List.mem_singleton] at hx
              subst hx
              rw [hfat]
              simp [Function.update_same]
            · intro x hx
              simp only [List.mem_singleton] at hx
              rw [hfat]
              simp [Function.update_noteq hx]
      · cases htl
  | cons b l3 ih =>
      rcases Chain_inv v c (b :: l3) hch with ⟨hnil, _, _, _, _⟩ | ⟨h2, hn, htl, hnot⟩
      · exact absurd hnil (by simp)
      · obtain ⟨l5, hl5⟩ := Chain_head v (v.fat c) (b :: l3) htl
        injection hl5 with hb hl3
        subst hb
        subst hl3
        cases fuel with
        | zero => simp at hfuel
        | succ fuel =>
            have hc2r := Chain_range v (v.fat c) _ htl
            have hg : get_fat_m v c = v.fat c := get_fat_m_in_range v c h2 hn
            unfold removeLoop
            rw [hg, if_neg (by omega), if_neg (by omega), if_neg (by omega),
              put_fat_m_zero v c h2 hn]
            simp only []
            rw [if_pos (by omega : v.fat c < v.n_fatent)]
            obtain ⟨hfat, hnfe, hfst, hcs, hss, hlc⟩ :=
              freeIncr_fields { v with fat := Function.update v.fat c 0 }
            set v2 := freeIncr { v with fat := Function.update v.fat c 0 } with hv2
            have hcnot : c ∉ l3 := fun hx => hnot (by simp [hx])
            have hcne : c ≠ v.fat c := fun he => hnot (by rw [← he]; simp)
            have hch2 : Chain v2 (v.fat c) (v.fat c :: l3) := by
              apply Chain_congr v v2 (v.fat c) (v.fat c :: l3) htl (by rw [hnfe])
              intro x hx
              rw [hfat]
              have hxc : x ≠ c := by
                intro hxc
                subst hxc
                simp only [List.mem_cons] at hx
                rcases hx with hx | hx
                · exact hcne hx
                · exact hcnot hx
              simp [Function.update_noteq hxc]
            obtain ⟨ih1, ih2, ih3, ih4, ih5, ih6, ih7, ih8⟩ :=
              ih v2 (v.fat c) fuel hch2 (by rw [hnfe]; exact hnf)
                (by simp only [List.length_cons] at hfuel ⊢; omega)
            have hcnotl : c ∉ v.fat c :: l3 := hnot
            refine ⟨ih1, ?_, ?_, by rw [ih4, hnfe], by rw [ih5, hfst],
              by rw [ih6, hcs], by rw [ih7, hss], by rw [ih8, hlc]⟩
            · intro x hx
              simp only [List.mem_cons] at hx
              rcases hx with hx | hx
              · subst hx
                rw [ih3 x hcnotl, hfat]
                simp [Function.update_same]
              · exact ih2 x (by simp only [List.mem_cons]; exact hx)
            · intro x hx
              simp only [List.mem_cons] at hx
              push_neg at hx
              have hx2 : x ∉ v.fat c :: l3 := by
                simp only [List.mem_cons]
                push_neg
                exact hx.2
              rw [ih3 x hx2, hfat]
              simp [Function.update_noteq hx.1]

/-- remove_chain on a whole well-formed chain (pclst = 0): every cluster of
the chain is freed, nothing else changes in the FAT, and the call
succeeds. -/
theorem remove_chain_m_frees (l : List Nat) (v : FatVol) (c : Nat)
    (hch : Chain v c l) (hnf : v.n_fatent < 0xFFFFFFFF)
    (hlen : l.length ≤ v.n_fatent) :
    (remove_chain_m v c 0).1 = FRESULT.ok ∧
    (∀ x ∈ l, (remove_chain_m v c 0).2.fat x = 0) ∧
    (∀ x, x ∉ l → (remove_chain_m v c 0).2.fat x = v.fat x) ∧
    (remove_chain_m v c 0).2.n_fatent = v.n_fatent ∧
    (remove_chain_m v c 0).2.fs_type = v.fs_type ∧
    (remove_chain_m v c 0).2.csize = v.csize ∧
    (remove_chain_m v c 0).2.ss = v.ss ∧
    (remove_chain_m v c 0).2.last_clst = v.last_clst := by
  obtain ⟨l2, hl2⟩ := Chain_head v c l hch
  subst hl2
  have hcr := Chain_range v c _ hch
  unfold remove_chain_m
  rw [if_neg (by omega), if_neg (by omega : ¬ (0 : Nat) ≠ 0)]
  exact removeLoop_frees l2 v c v.n_fatent hch hnf hlen

/-! ## File handle state and f_truncate (ff.c 4522-4589) -/

/-- File handle fields that the modelled operations read and write (FIL in
ff.h).  The access-mode byte is modelled as its individual flag bits since
the numeric FA_ constants live in ff.h outside src/; err holds FR_OK for a
clear error flag, matching the source where both are the byte 0. -/
structure FIL where
  sclust : Nat
  objsize : Nat
  fptr : Nat
  clust : Nat
  sect : Nat
  flagRead : Bool
  flagWrite : Bool
  flagModified : Bool
  flagDirty : Bool
  err : FRESULT
  deriving DecidableEq, Repr

/-- Cluster-counting walk of f_truncate (ff.c 4544-4551): fclust = val;
val = get_fat(fclust); count++; break when count reaches tcl; continue
while val is neither the end marker, nor reserved, nor the disk-error
value.  Returns (fclust, val) at loop exit. -/
def truncWalk : Nat → FatVol → Nat → Nat → Nat → Nat → Nat × Nat
  | 0, _, _, _, val, _ => (val, 1)
  | fuel + 1, v, eoc, tcl, val, count =>
      if count + 1 = tcl then (val, get_fat_m v val)
      else if get_fat_m v val ≠ eoc ∧ get_fat_m v val ≠ 1 ∧
          get_fat_m v val ≠ 0xFFFFFFFF then
        truncWalk fuel v eoc tcl (get_fat_m v val) (count + 1)
      else (val, get_fat_m v val)

/-- Epilogue of f_truncate (ff.c 4561-4586): on success update last_clst,
set the new size, pull fptr and clust back when they sat past the new end;
always mark the handle modified; flush the dirty private sector cache
(wOk is the disk_write outcome); a failing result is latched into err by
ABORT. -/
def truncEpilogue (v2 : FatVol) (fp1 : FIL) (length fclust : Nat)
    (res : FRESULT) (wOk : Bool) : FRESULT × FatVol × FIL :=
  let v3 := if res = FRESULT.ok then { v2 with last_clst := fclust } else v2
  let fp2 := if res = FRESULT.ok then
      { fp1 with
        objsize := length
        fptr := if length < fp1.fptr then length else fp1.fptr
        clust := if length < fp1.fptr then fclust else fp1.clust }
    else fp1
  let fp3 := { fp2 with flagModified := true }
  if res = FRESULT.ok ∧ fp3.flagDirty then
    if wOk then (FRESULT.ok, v3, { fp3 with flagDirty := false })
    else (FRESULT.diskErr, v3, { fp3 with err := FRESULT.diskErr })
  else if res ≠ FRESULT.ok then (res, v3, { fp3 with err := res })
  else (res, v3, fp3)

/-- f_truncate (ff.c 4522-4589) on a handle that passed validate.  wOk is
the outcome of the disk_write that flushes a dirty private sector cache. -/
def f_truncate_m (v : FatVol) (fp : FIL) (length : Nat) (wOk : Bool) :
    FRESULT × FatVol × FIL :=
  if fp.err ≠ FRESULT.ok then (fp.err, v, fp)
  else if ¬ fp.flagWrite then (FRESULT.noEperm, v, fp)
  else if fp.fptr ≤ fp.objsize then
    if fp.fptr = 0 ∧ length = 0 then
      let r := remove_chain_m v fp.sclust 0
      truncEpilogue r.2 { fp with sclust := 0 } length 0 r.1 wOk
    else
      let n := v.csize * v.ss
      let tcl := length / n + (if length &&& (n - 1) ≠ 0 then 1 else 0)
      let w := truncWalk (v.n_fatent + tcl + 1) v (get_end_of_cluster v.fs_type)
        tcl fp.sclust 0
      let res1 := if w.2 = 0xFFFFFFFF then FRESULT.diskErr
        else if w.2 = 1 then FRESULT.intErr else FRESULT.ok
      if res1 = FRESULT.ok ∧ w.2 < v.n_fatent then
        let r := remove_chain_m v w.2 w.1
        truncEpilogue r.2 fp length w.1 r.1 wOk
      else truncEpilogue v fp length w.1 res1 wOk
  else (FRESULT.ok, v, fp)

/-- FAT32 volume with a one-cluster chain at cluster 2 for the truncate
counterexample. -/
def exV2 : FatVol :=
  FatVol.mk FS_FAT32 10 1 512 3 5 100 (fun c => if c = 2 then 0x0FFFFFFF else 0)

/-- Write-mode handle on that chain whose file pointer sits at byte 512. -/
def exFp2 : FIL := FIL.mk 2 1024 512 2 0 true true false false FRESULT.ok

/-- Counterexample to claim C2 as stated: with the file pointer at 512
(not 0), f_truncate to size 0 succeeds but keeps the start cluster and the
cluster chain (only the size is zeroed), because the chain is freed only
in the fptr == 0 branch of the source. -/
theorem c2_counterexample :
    (f_truncate_m exV2 exFp2 0 true).1 = FRESULT.ok ∧
    (f_truncate_m exV2 exFp2 0 true).2.2.sclust = 2 ∧
    (f_truncate_m exV2 exFp2 0 true).2.2.objsize = 0 ∧
    (f_truncate_m exV2 exFp2 0 true).2.1.fat 2 = 0x0FFFFFFF ∧
    exFp2.fptr ≠ 0 ∧ exFp2.flagWrite = true := by
  refine ⟨rfl, rfl, rfl, rfl, by decide, rfl⟩

/-- Claim C2 (amended): on a write-enabled handle with no latched error,
f_truncate with new size 0 frees the entire cluster chain and zeroes
sclust when the file pointer is at 0; when the file pointer is not 0 the
chain and sclust are retained (see the counterexample) and only the size
is reset. -/
theorem truncEpilogue_ok (v2 : FatVol) (fp1 : FIL) (length fclust : Nat)
    (wOk : Bool) (hd : fp1.flagDirty = false) :
    truncEpilogue v2 fp1 length fclust FRESULT.ok wOk =
      (FRESULT.ok,
       { v2 with last_clst := fclust },
       { fp1 with
         objsize := length
         fptr := if length < fp1.fptr then length else fp1.fptr
         clust := if length < fp1.fptr then fclust else fp1.clust
         flagModified := true }) := by
  unfold truncEpilogue
  simp [hd]

theorem c2_truncate_zero_frees_chain (v : FatVol) (fp : FIL) (l : List Nat)
    (wOk : Bool) (herr : fp.err = FRESULT.ok) (hw : fp.flagWrite = true)
    (hfptr : fp.fptr = 0) (hch : Chain v fp.sclust l)
    (hnf : v.n_fatent < 0xFFFFFFFF) (hlen : l.length ≤ v.n_fatent)
    (hdirty : fp.flagDirty = false) :
    (f_truncate_m v fp 0 wOk).1 = FRESULT.ok ∧
    (f_truncate_m v fp 0 wOk).2.2.sclust = 0 ∧
    (f_truncate_m v fp 0 wOk).2.2.objsize = 0 ∧
    (∀ x ∈ l, (f_truncate_m v fp 0 wOk).2.1.fat x = 0) := by
  obtain ⟨hr1, hr2, hr3, hr4, hr5, hr6, hr7, hr8⟩ :=
    remove_chain_m_frees l v fp.sclust hch hnf hlen
  have hval : f_truncate_m v fp 0 wOk =
      truncEpilogue (remove_chain_m v fp.sclust 0).2 { fp with sclust := 0 } 0 0
        (remove_chain_m v fp.sclust 0).1 wOk := by
    unfold f_truncate_m
    rw [if_neg (by rw [herr]; exact fun hc => hc rfl),
      if_neg (by rw [hw]; exact fun hc => hc rfl),
      if_pos (by omega : fp.fptr ≤ fp.objsize),
      if_pos ⟨hfptr, rfl⟩]
  rw [hval, hr1, truncEpilogue_ok _ _ _ _ _ (by simp [hdirty])]
  refine ⟨rfl, by simp, by simp, ?_⟩
  intro x hx
  simp only []
  exact hr2 x hx

/-- Write-mode handle on the exV2 chain with the file pointer at 0. -/
def exFp2b : FIL := FIL.mk 2 1024 0 2 0 true true false false FRESULT.ok

theorem c2_truncate_zero_frees_chain_witness :
    (f_truncate_m exV2 exFp2b 0 true).1 = FRESULT.ok ∧
    (f_truncate_m exV2 exFp2b 0 true).2.2.sclust = 0 ∧
    (f_truncate_m exV2 exFp2b 0 true).2.2.objsize = 0 ∧
    (∀ x ∈ [2], (f_truncate_m exV2 exFp2b 0 true).2.1.fat x = 0) :=
  c2_truncate_zero_frees_chain exV2 exFp2b [2] true rfl rfl rfl
    (Chain.last 2 (by decide) (by decide) (by decide) (by decide)) (by decide)
    (by decide) rfl

/-! ## f_open: create/open decision (ff.c 3326-3408) -/

/-- Open-mode bits of f_open after the entry mask (ff.c 3298).  The numeric
FA_ constants live in ff.h outside src/, so the mode byte is modelled as
its individual bits. -/
structure Mode where
  read : Bool
  write : Bool
  createNew : Bool
  createAlways : Bool
  openAlways : Bool
  seekend : Bool
  deriving DecidableEq, Repr

/-- mode & ~FA_READ as the lock-access selector of ff.c 3332/3418: any set
bit other than FA_READ makes the open a write-mode open for the
registry. -/
def modeWriteAcc (m : Mode) : Bool :=
  m.write || m.createNew || m.createAlways || m.openAlways || m.seekend

/-- Result-code decision of f_open from follow_path to line 3408, before
the actions (entry truncation, registry insertion, buffer allocation) that
follow on FR_OK.  followRes is the follow_path result, noname the
NS_NONAME flag of the parsed last segment, shareRes the chk_share verdict,
attrRdo / attrDir the AM_RDO / AM_DIR attribute bits of the found entry,
and regRes the combined enq_share / dir_register outcome of the
OPEN_ALWAYS create path (ff.c 3341). -/
def f_open_decision (mode : Mode) (followRes : FRESULT) (noname : Bool)
    (shareRes : FRESULT) (attrRdo attrDir : Bool) (regRes : FRESULT) : FRESULT :=
  let res1 := if followRes = FRESULT.ok then
      (if noname then FRESULT.invalidName else shareRes)
    else followRes
  if mode.createAlways || mode.openAlways || mode.createNew then
    if res1 ≠ FRESULT.ok then
      (if res1 = FRESULT.noFile ∧ mode.openAlways then regRes else res1)
    else if attrRdo || attrDir then FRESULT.isDir
    else if mode.createNew then FRESULT.exist
    else FRESULT.ok
  else
    if res1 = FRESULT.ok then
      if attrDir then FRESULT.isDir
      else if mode.write ∧ attrRdo then FRESULT.denied
      else FRESULT.ok
    else res1

/-- Counterexample to claim C3 as stated: a WRITE open that also carries
FA_CREATE_ALWAYS against an existing read-only plain file fails with
FR_IS_DIR (ff.c 3350-3351), not with FR_DENIED. -/
theorem c3_counterexample :
    f_open_decision (Mode.mk false true false true false false) FRESULT.ok
      false FRESULT.ok true false FRESULT.ok = FRESULT.isDir ∧
    f_open_decision (Mode.mk false true false true false false) FRESULT.ok
      false FRESULT.ok true false FRESULT.ok ≠ FRESULT.denied := by
  constructor
  · rfl
  · decide

/-- Claim C3 (amended): a WRITE-bit open of an existing read-only plain
file is refused, but the result code depends on the create flags: with
none of FA_CREATE_ALWAYS / FA_OPEN_ALWAYS / FA_CREATE_NEW set it is
FR_DENIED (ff.c 3403-3404); with any of them set the read-only attribute
falls into the cannot-overwrite branch and yields FR_IS_DIR
(ff.c 3350-3351). -/
theorem c3_write_on_readonly (mode : Mode) (regRes : FRESULT)
    (hw : mode.write = true) :
    (mode.createAlways = false → mode.openAlways = false →
      mode.createNew = false →
      f_open_decision mode FRESULT.ok false FRESULT.ok true false regRes =
        FRESULT.denied) ∧
    ((mode.createAlways || mode.openAlways || mode.createNew) = true →
      f_open_decision mode FRESULT.ok false FRESULT.ok true false regRes =
        FRESULT.isDir) := by
  constructor
  · intro h1 h2 h3
    unfold f_open_decision
    simp [h1, h2, h3, hw]
  · intro h1
    unfold f_open_decision
    rcases Bool.or_eq_true_iff.mp h1 with h | h
    · rcases Bool.or_eq_true_iff.mp h with h | h <;> simp [h]
    · simp [h]

theorem c3_write_on_readonly_witness :
    ((Mode.mk false true false false false false).createAlways = false →
      (Mode.mk false true false false false false).openAlways = false →
      (Mode.mk false true false false false false).createNew = false →
      f_open_decision (Mode.mk false true false false false false) FRESULT.ok
        false FRESULT.ok true false FRESULT.ok = FRESULT.denied) ∧
    (((Mode.mk false true false false false false).createAlways ||
        (Mode.mk false true false false false false).openAlways ||
        (Mode.mk false true false false false false).createNew) = true →
      f_open_decision (Mode.mk false true false false false false) FRESULT.ok
        false FRESULT.ok true false FRESULT.ok = FRESULT.isDir) :=
  c3_write_on_readonly (Mode.mk false true false false false false) FRESULT.ok rfl

/-! ## Numbered 8.3 names (gen_numname, ff.c 1740-1787) and the collision
retry loop of dir_register (ff.c 2037-2047) -/

/-- One shift step of the CRC of gen_numname (ff.c 1760-1762):
sreg = (sreg << 1) + (wc & 1); wc >>= 1; conditional xor with 0x11021. -/
def crcStepBit (p : Nat × Nat) : Nat × Nat :=
  let sreg := (p.1 * 2) + (p.2 &&& 1)
  ((if sreg &&& 0x10000 ≠ 0 then sreg ^^^ 0x11021 else sreg), p.2 / 2)

/-- Sixteen shift steps, one source character (ff.c 1759-1763). -/
def crcBits : Nat → Nat × Nat → Nat × Nat
  | 0, p => p
  | n + 1, p => crcBits n (crcStepBit p)

/-- Hash of gen_numname for many collisions (ff.c 1755-1766): the CRC is
seeded with the sequence number and folded over the characters of the long
name (a list of its nonzero UTF-16 units). -/
def numCrc (lfn : List Nat) (seq : Nat) : Nat :=
  lfn.foldl (fun s wc => (crcBits 16 (s, wc)).1) seq

/-- One suffix character (ff.c 1771-1772): hexadecimal digit with letters
shifted past the gap after '9'. -/
def hexChar (d : Nat) : Nat :=
  if d % 16 + 48 > 57 then d % 16 + 48 + 7 else d % 16 + 48

/-- Digit loop of gen_numname (ff.c 1769-1774): fills from position 7
downwards while positions and a nonzero remainder remain; the first
argument is the current position, playing the loop counter i. -/
def suffixLoop : Nat → Nat → List Nat → List Nat
  | 0, _, acc => acc
  | i + 1, seq, acc =>
      if i ≠ 0 ∧ seq / 16 ≠ 0 then suffixLoop i (seq / 16) (hexChar seq :: acc)
      else hexChar seq :: acc

/-- The characters gen_numname appends: a tilde followed by the digits of
the (possibly hashed) sequence number (ff.c 1768-1775). -/
def numTail (lfn : List Nat) (seq : Nat) : List Nat :=
  0x7E :: suffixLoop 7 (if 5 < seq then numCrc lfn seq else seq) []

/-- Offset search of gen_numname (ff.c 1778-1783): advance to the suffix
position, stopping at the space padding or at the bound i, skipping DBC
pairs whole; fuel-bounded rendering of the for loop. -/
def appendOff (dbc1 : Nat → Bool) (dst : List Nat) (i : Nat) : Nat → Nat → Nat
  | 0, j => j
  | fuel + 1, j =>
      if j < i ∧ dst.getD j 0 ≠ 0x20 then
        if dbc1 (dst.getD j 0) then
          if j = i - 1 then j else appendOff dbc1 dst i fuel (j + 2)
        else appendOff dbc1 dst i fuel (j + 1)
      else j

/-- gen_numname (ff.c 1740-1787) on an 11-byte SFN buffer: copy the source
name, then overwrite the name body from the computed offset with the tilde
suffix, padding with spaces to position 7; the extension bytes 8..10 are
kept.  dbc1 is the dbc_1st predicate of the active code page. -/
def gen_numname_m (dbc1 : Nat → Bool) (src lfn : List Nat) (seq : Nat) :
    List Nat :=
  let nsfull := numTail lfn seq
  let j0 := appendOff dbc1 src (8 - nsfull.length) 8 0
  (List.range 8).map (fun j => if j < j0 then src.getD j 0
    else nsfull.getD (j - j0) 0x20)
    ++ [src.getD 8 0, src.getD 9 0, src.getD 10 0]

/-- Numbered-name retry loop of dir_register (ff.c 2039-2046): find is the
dir_find outcome for the name generated with sequence number n; FR_OK
means the generated name collides with an existing entry; up to 99
attempts, then FR_DENIED; a non-collision outcome other than FR_NO_FILE
is returned as is, and FR_NO_FILE lets registration proceed (FR_OK
here). -/
def regLoop (find : Nat → FRESULT) : Nat → Nat → FRESULT
  | 0, _ => FRESULT.denied
  | fuel + 1, n =>
      if n < 100 then
        if find n = FRESULT.ok then regLoop find fuel (n + 1)
        else if find n ≠ FRESULT.noFile then find n
        else FRESULT.ok
      else FRESULT.denied

/-- The numbered-name part of dir_register (ff.c 2037-2047). -/
def dir_register_numbered (find : Nat → FRESULT) : FRESULT :=
  regLoop find 100 1

theorem crcStepBit_lt (p : Nat × Nat) (h : p.1 < 0x10000) :
    (crcStepBit p).1 < 0x10000 := by
  unfold crcStepBit
  simp only []
  split
  · rename_i hbit
    set s2 := p.1 * 2 + (p.2 &&& 1) with hs2
    have hb : (p.2 &&& 1) ≤ 1 := Nat.and_le_right
    have hlt : s2 < 2 ^ 17 := by
      have : (0x10000 : Nat) = 2 ^ 16 := by norm_num
      rw [this] at h
      have : 2 ^ 17 = 2 ^ 16 * 2 := by norm_num
      omega
    have h16 : s2.testBit 16 = true := by
      have := Nat.and_two_pow s2 16
      have he : (0x10000 : Nat) = 2 ^ 16 := by norm_num
      rw [he] at hbit
      by_contra hc
      simp only [Bool.not_eq_true] at hc
      rw [hc] at this
      simp at this
      exact hbit this
    by_contra hc
    push_neg at hc
    have he16 : (0x10000 : Nat) = 2 ^ 16 := by norm_num
    rw [he16] at hc
    obtain ⟨i, hi, hbiti⟩ := Nat.ge_two_pow_implies_high_bit_true hc
    rw [Nat.testBit_xor] at hbiti
    rcases Nat.lt_or_ge i 17 with hi17 | hi17
    · have hieq : i = 16 := by omega
      subst hieq
      rw [h16] at hbiti
      have : Nat.testBit 0x11021 16 = true := by decide
      rw [this] at hbiti
      simp at hbiti
    · have h1 : s2.testBit i = false := Nat.testBit_lt_two_pow (by
        calc s2 < 2 ^ 17 := hlt
        _ ≤ 2 ^ i := Nat.pow_le_pow_right (by norm_num) hi17)
      have h2 : Nat.testBit 0x11021 i = false := Nat.testBit_lt_two_pow (by
        calc (0x11021 : Nat) < 2 ^ 17 := by norm_num
        _ ≤ 2 ^ i := Nat.pow_le_pow_right (by norm_num) hi17)
      rw [h1, h2] at hbiti
      simp at hbiti
  · rename_i hbit
    push_neg at hbit
    set s2 := p.1 * 2 + (p.2 &&& 1) with hs2
    by_contra hc
    push_neg at hc
    have hb : (p.2 &&& 1) ≤ 1 := Nat.and_le_right
    have hlt : s2 < 2 ^ 17 := by
      have he : (0x10000 : Nat) = 2 ^ 16 := by norm_num
      rw [he] at h
      have : (2 : Nat) ^ 17 = 2 ^ 16 * 2 := by norm_num
      omega
    have h16 : s2.testBit 16 = true := by
      have hge : 2 ^ 16 ≤ s2 := by
        have he : (0x10000 : Nat) = 2 ^ 16 := by norm_num
        rw [he] at hc
        exact hc
      rw [Nat.testBit_to_div_mod]
      simp only [decide_eq_true_eq]
      have h17 : (2 : Nat) ^ 17 = 2 ^ 16 * 2 := by norm_num
      have : s2 / 2 ^ 16 = 1 := by
        rw [h17] at hlt
        omega
      rw [this]
    have hand := Nat.and_two_pow s2 16
    rw [h16] at hand
    simp only [Bool.toNat_true, one_mul] at hand
    have he : (0x10000 : Nat) = 2 ^ 16 := by norm_num
    rw [he] at hbit
    rw [hand] at hbit
    have : (2 : Nat) ^ 16 ≠ 0 := by positivity
    exact this hbit

theorem crcBits_lt (n : Nat) (p : Nat × Nat) (h : p.1 < 0x10000) :
    (crcBits n p).1 < 0x10000 := by
  induction n generalizing p with
  | zero => exact h
  | succ n ih => exact ih (crcStepBit p) (crcStepBit_lt p h)

theorem numCrc_lt (lfn : List Nat) (seq : Nat) (h : seq < 0x10000) :
    numCrc lfn seq < 0x10000 := by
  unfold numCrc
  induction lfn generalizing seq with
  | nil => exact h
  | cons wc rest ih =>
      simp only [List.foldl_cons]
      exact ih _ (crcBits_lt 16 (seq, wc) h)

theorem suffixLoop_len (k : Nat) (hk : 1 ≤ k) :
    ∀ (i seq : Nat) (acc : List Nat), seq < 16 ^ k →
      (suffixLoop i seq acc).length ≤ acc.length + k := by
  induction k with
  | zero => omega
  | succ k ih =>
      intro i seq acc hseq
      cases i with
      | zero => unfold suffixLoop; omega
      | succ i =>
          unfold suffixLoop
          split
          · rename_i hcond
            have hk1 : 1 ≤ k := by
              by_contra hc
              have hk0 : k = 0 := by omega
              subst hk0
              have : seq < 16 := by norm_num at hseq; omega
              have : seq / 16 = 0 := by omega
              exact hcond.2 this
            have := ih hk1 i (seq / 16) (hexChar seq :: acc) (by
              have : 16 ^ (k + 1) = 16 ^ k * 16 := by ring
              rw [this] at hseq
              omega)
            simp only [List.length_cons] at this
            omega
          · simp only [List.length_cons]
            omega

theorem hexChar_range (d : Nat) :
    (48 ≤ hexChar d ∧ hexChar d ≤ 57) ∨ (65 ≤ hexChar d ∧ hexChar d ≤ 70) := by
  unfold hexChar
  have : d % 16 < 16 := Nat.mod_lt _ (by norm_num)
  split <;> omega

theorem suffixLoop_hex (i seq : Nat) (acc : List Nat)
    (hacc : ∀ c ∈ acc, (48 ≤ c ∧ c ≤ 57) ∨ (65 ≤ c ∧ c ≤ 70)) :
    ∀ c ∈ suffixLoop i seq acc, (48 ≤ c ∧ c ≤ 57) ∨ (65 ≤ c ∧ c ≤ 70) := by
  induction i generalizing seq acc with
  | zero => exact hacc
  | succ i ih =>
      unfold suffixLoop
      split
      · exact ih (seq / 16) (hexChar seq :: acc) (by
          intro c hc
          simp only [List.mem_cons] at hc
          rcases hc with hc | hc
          · subst hc; exact hexChar_range seq
          · exact hacc c hc)
      · intro c hc
        simp only [List.mem_cons] at hc
        rcases hc with hc | hc
        · subst hc; exact hexChar_range seq
        · exact hacc c hc

theorem regLoop_all_collide (find : Nat → FRESULT) (fuel n : Nat)
    (hn : 1 ≤ n) (hfuel : 100 ≤ fuel + n)
    (hall : ∀ m, n ≤ m → m ≤ 99 → find m = FRESULT.ok) :
    regLoop find fuel n = FRESULT.denied := by
  induction fuel generalizing n with
  | zero => rfl
  | succ fuel ih =>
      unfold regLoop
      by_cases h100 : n < 100
      · rw [if_pos h100, if_pos (hall n (by omega) (by omega))]
        exact ih (n + 1) (by omega) (by omega)
          (fun m hm1 hm2 => hall m (by omega) hm2)
      · rw [if_neg h100]

theorem regLoop_first_fresh (find : Nat → FRESULT) (fuel n n0 : Nat)
    (hn : 1 ≤ n) (hn0 : n ≤ n0) (h99 : n0 ≤ 99) (hfuel : 100 ≤ fuel + n)
    (hpre : ∀ m, n ≤ m → m < n0 → find m = FRESULT.ok)
    (hfresh : find n0 = FRESULT.noFile) :
    regLoop find fuel n = FRESULT.ok := by
  induction fuel generalizing n with
  | zero => omega
  | succ fuel ih =>
      unfold regLoop
      rw [if_pos (by omega : n < 100)]
      by_cases heq : n = n0
      · subst heq
        rw [hfresh]
        simp
      · rw [if_pos (hpre n (by omega) (by omega))]
        exact ih (n + 1) (by omega) (by omega) (by omega)
          (fun m hm1 hm2 => hpre m (by omega) hm2)

/-- Claim C9: dir_register generates numbered tails, with sequence numbers
1..5 rendered literally as a tilde and the decimal digit, and sequence
numbers 6 and up rendered as a tilde and the hexadecimal digits of a
16-bit hash of the long name seeded with the sequence number; it probes
the directory once per candidate, and when the generated names of all 99
attempts collide the registration gives up with FR_DENIED, so the 100th
colliding create of a given long name fails; the first attempt whose name
is not found lets the create proceed. -/
theorem c9_numname_collision_retry (lfn : List Nat) (find : Nat → FRESULT) :
    (∀ seq, 1 ≤ seq → seq ≤ 5 → numTail lfn seq = [0x7E, 48 + seq]) ∧
    (∀ seq, 6 ≤ seq → seq < 0x10000 →
      numCrc lfn seq < 0x10000 ∧
      numTail lfn seq = 0x7E :: suffixLoop 7 (numCrc lfn seq) [] ∧
      (numTail lfn seq).length ≤ 5 ∧
      (∀ c ∈ suffixLoop 7 (numCrc lfn seq) [],
        (48 ≤ c ∧ c ≤ 57) ∨ (65 ≤ c ∧ c ≤ 70))) ∧
    ((∀ m, 1 ≤ m → m ≤ 99 → find m = FRESULT.ok) →
      dir_register_numbered find = FRESULT.denied) ∧
    (∀ n0, 1 ≤ n0 → n0 ≤ 99 → (∀ m, 1 ≤ m → m < n0 → find m = FRESULT.ok) →
      find n0 = FRESULT.noFile → dir_register_numbered find = FRESULT.ok) := by
  refine ⟨?_, ?_, ?_, ?_⟩
  · intro seq h1 h5
    unfold numTail
    rw [if_neg (by omega)]
    unfold suffixLoop
    rw [if_neg (by
      intro hc
      have : seq / 16 = 0 := by omega
      exact hc.2 this)]
    unfold hexChar
    rw [if_neg (by omega)]
    have hm : seq % 16 = seq := Nat.mod_eq_of_lt (by omega)
    rw [hm, Nat.add_comm]
  · intro seq h6 hlt
    have hcrc := numCrc_lt lfn seq hlt
    refine ⟨hcrc, ?_, ?_, ?_⟩
    · unfold numTail
      rw [if_pos (by omega)]
    · unfold numTail
      rw [if_pos (by omega)]
      have := suffixLoop_len 4 (by norm_num) 7 (numCrc lfn seq) [] (by
        norm_num
        omega)
      simp only [List.length_nil] at this
      simp only [List.length_cons]
      omega
    · exact suffixLoop_hex 7 (numCrc lfn seq) [] (by intro c hc; cases hc)
  · intro hall
    exact regLoop_all_collide find 100 1 (by omega) (by omega) hall
  · intro n0 h1 h99 hpre hfresh
    exact regLoop_first_fresh find 100 1 n0 (by omega) h1 h99 (by omega)
      hpre hfresh

/-! ### f_read, f_write, f_sync: byte counters and the sticky error (C7, C8, C10) -/

/-- clst2sect (ff.c 1023-1032): first data sector of a cluster.  The
unsigned clst - 2 wraps for clst < 2, so those clusters (and the ones at
or past n_fatent) map to 0, the failure value. -/
def clst2sect (v : FatVol) (clst : Nat) : Nat :=
  if clst < 2 ∨ v.n_fatent ≤ clst then 0
  else v.database + v.csize * (clst - 2)

/-- Cache handling of one f_read iteration when less than a sector
remains (ff.c 3617-3628), FF_FS_TINY == 0: when the wanted sector is not
the cached one, write back a dirty cache (wr) and fill it from the disk
(rd); on success the cache holds sect.  A failing disk access latches the
result into fp->err (ABORT, ff.c 167). -/
def readFill (rd : Nat → Nat → Bool) (wr : Nat → Bool) (fp1 : FIL)
    (sect : Nat) : FRESULT × FIL :=
  if fp1.sect ≠ sect then
    if fp1.flagDirty then
      if wr fp1.sect then
        if rd sect 1 then
          (FRESULT.ok, { fp1 with flagDirty := false, sect := sect })
        else (FRESULT.diskErr,
          { fp1 with flagDirty := false, err := FRESULT.diskErr })
      else (FRESULT.diskErr, { fp1 with err := FRESULT.diskErr })
    else
      if rd sect 1 then (FRESULT.ok, { fp1 with sect := sect })
      else (FRESULT.diskErr, { fp1 with err := FRESULT.diskErr })
  else (FRESULT.ok, { fp1 with sect := sect })

/-- One iteration of the transfer loop of f_read (ff.c 3564-3646),
FF_FS_TINY == 0, no fast seek, for btr > 0: rd sect cnt is the outcome of
the disk_read of cnt sectors at sect, wr that of the write-back of the
dirty private cache; the byte copies into the caller's buffer succeed and
the data bytes are not tracked (nor is the dirty-sector overlay of ff.c
3604-3611, which moves bytes only).  inl (res, fp) is a loop exit by
ABORT with res latched into fp->err; inr (fp, rcnt) moves rcnt bytes and
continues. -/
def readStep (v : FatVol) (rd : Nat → Nat → Bool) (wr : Nat → Bool)
    (fp : FIL) (btr : Nat) : (FRESULT × FIL) ⊕ (FIL × Nat) :=
  if fp.fptr % v.ss = 0 then
    let csect := fp.fptr / v.ss &&& (v.csize - 1)
    let clst := if csect = 0 then
        (if fp.fptr = 0 then fp.sclust else get_fat_m v fp.clust)
      else fp.clust
    if clst < 2 then .inl (FRESULT.intErr, { fp with err := FRESULT.intErr })
    else if clst = 0xFFFFFFFF then
      .inl (FRESULT.diskErr, { fp with err := FRESULT.diskErr })
    else
      let fp1 := { fp with clust := clst }
      if clst2sect v clst = 0 then
        .inl (FRESULT.intErr, { fp1 with err := FRESULT.intErr })
      else
        let sect := clst2sect v clst + csect
        let cc := btr / v.ss
        if 0 < cc then
          let cc2 := if v.csize < csect + cc then v.csize - csect else cc
          if rd sect cc2 then
            .inr ({ fp1 with fptr := fp1.fptr + v.ss * cc2 }, v.ss * cc2)
          else .inl (FRESULT.diskErr, { fp1 with err := FRESULT.diskErr })
        else
          let f := readFill rd wr fp1 sect
          if f.1 = FRESULT.ok then
            let fp2 := f.2
            let rcnt := if btr < v.ss - fp2.fptr % v.ss then btr
              else v.ss - fp2.fptr % v.ss
            .inr ({ fp2 with fptr := fp2.fptr + rcnt }, rcnt)
          else .inl (f.1, f.2)
  else
    let rcnt := if btr < v.ss - fp.fptr % v.ss then btr
      else v.ss - fp.fptr % v.ss
    .inr ({ fp with fptr := fp.fptr + rcnt }, rcnt)

/-- Transfer loop of f_read (ff.c 3564): run readStep until btr runs out
or a step aborts, accumulating the byte counter *br.  The fuel bounds the
iterations; the caller passes btr, enough because every iteration moves
at least one byte. -/
def readLoop (v : FatVol) (rd : Nat → Nat → Bool) (wr : Nat → Bool) :
    Nat → FIL → Nat → Nat → FRESULT × FIL × Nat
  | 0, fp, _, br => (FRESULT.ok, fp, br)
  | fuel + 1, fp, btr, br =>
      if btr = 0 then (FRESULT.ok, fp, br)
      else
        match readStep v rd wr fp btr with
        | .inl (r, fpe) => (r, fpe, br)
        | .inr (fp2, rcnt) => readLoop v rd wr fuel fp2 (btr - rcnt) (br + rcnt)

/-- f_read (ff.c 3539-3649) on a handle that passed validate: clear the
byte counter, consult the latched error, check FA_READ, clip the request
to the remaining bytes (DWORD arithmetic of FSIZE_t) and run the transfer
loop. -/
def f_read_m (v : FatVol) (rd : Nat → Nat → Bool) (wr : Nat → Bool)
    (fp : FIL) (btr : Nat) : FRESULT × FIL × Nat :=
  if fp.err ≠ FRESULT.ok then (fp.err, fp, 0)
  else if ¬ fp.flagRead then (FRESULT.noEperm, fp, 0)
  else
    let remain := dw (fp.objsize + 0x100000000 - fp.fptr)
    let btr2 := if remain < btr then remain else btr
    readLoop v rd wr btr2 fp btr2 0

/-- Transfer loop of f_write (ff.c 3686-3785), FF_FS_TINY == 0, no fast
seek: wrc sect cnt is the outcome of the direct disk_write of cnt sectors
at sect, wr1 sect that of the write-back of the dirty private cache, rdf
sect that of the disk_read filling the cache before a partial overwrite;
the byte copies succeed and the data bytes are not tracked.  The FAT side
runs through create_chain_m; a failing step latches the result into
fp->err, while an exhausted volume breaks out with FR_NO_SPACE_LEFT and no
latched error. -/
def writeLoop (wrc : Nat → Nat → Bool) (wr1 : Nat → Bool) (rdf : Nat → Bool) :
    Nat → FatVol → FIL → Nat → Nat → FRESULT × FatVol × FIL × Nat
  | 0, v, fp, _, bw => (FRESULT.ok, v, fp, bw)
  | fuel + 1, v, fp, btw, bw =>
      if btw = 0 then (FRESULT.ok, v, fp, bw)
      else if fp.fptr % v.ss = 0 then
        let csect := fp.fptr / v.ss &&& (v.csize - 1)
        let cres : Nat × FatVol :=
          if csect = 0 then
            if fp.fptr = 0 then
              if fp.sclust = 0 then create_chain_m v 0 else (fp.sclust, v)
            else create_chain_m v fp.clust
          else (fp.clust, v)
        let clst := cres.1
        let v1 := cres.2
        if csect = 0 ∧ clst = 0 then (FRESULT.noSpaceLeft, v1, fp, bw)
        else if csect = 0 ∧ clst = 1 then
          (FRESULT.intErr, v1, { fp with err := FRESULT.intErr }, bw)
        else if csect = 0 ∧ clst = 0xFFFFFFFF then
          (FRESULT.diskErr, v1, { fp with err := FRESULT.diskErr }, bw)
        else
          let fp1 := if csect = 0 then
              { fp with
                clust := clst
                sclust := if fp.sclust = 0 then clst else fp.sclust }
            else fp
          if fp1.flagDirty ∧ ¬ wr1 fp1.sect then
            (FRESULT.diskErr, v1, { fp1 with err := FRESULT.diskErr }, bw)
          else
            let fp2 := if fp1.flagDirty then { fp1 with flagDirty := false }
              else fp1
            if clst2sect v1 fp2.clust = 0 then
              (FRESULT.intErr, v1, { fp2 with err := FRESULT.intErr }, bw)
            else
              let sect := clst2sect v1 fp2.clust + csect
              let cc := btw / v1.ss
              if 0 < cc then
                let cc2 := if v1.csize < csect + cc then v1.csize - csect else cc
                if wrc sect cc2 then
                  let fp3 := if sect ≤ fp2.sect ∧ fp2.sect - sect < cc2 then
                      { fp2 with flagDirty := false }
                    else fp2
                  let wcnt := v1.ss * cc2
                  writeLoop wrc wr1 rdf fuel v1
                    { fp3 with
                      fptr := fp3.fptr + wcnt
                      objsize := if fp3.objsize < fp3.fptr + wcnt then
                          fp3.fptr + wcnt
                        else fp3.objsize }
                    (btw - wcnt) (bw + wcnt)
                else (FRESULT.diskErr, v1, { fp2 with err := FRESULT.diskErr }, bw)
              else
                if fp2.sect ≠ sect ∧ fp2.fptr < fp2.objsize ∧ rdf sect = false
                then (FRESULT.diskErr, v1, { fp2 with err := FRESULT.diskErr }, bw)
                else
                  let fp3 := { fp2 with sect := sect }
                  let wcnt0 := v1.ss - fp3.fptr % v1.ss
                  let wcnt := if btw < wcnt0 then btw else wcnt0
                  writeLoop wrc wr1 rdf fuel v1
                    { fp3 with
                      flagDirty := true
                      fptr := fp3.fptr + wcnt
                      objsize := if fp3.objsize < fp3.fptr + wcnt then
                          fp3.fptr + wcnt
                        else fp3.objsize }
                    (btw - wcnt) (bw + wcnt)
      else
        let wcnt0 := v.ss - fp.fptr % v.ss
        let wcnt := if btw < wcnt0 then btw else wcnt0
        writeLoop wrc wr1 rdf fuel v
          { fp with
            flagDirty := true
            fptr := fp.fptr + wcnt
            objsize := if fp.objsize < fp.fptr + wcnt then fp.fptr + wcnt
              else fp.objsize }
          (btw - wcnt) (bw + wcnt)

/-- f_write (ff.c 3659-3790) on a handle that passed validate: clear the
byte counter, consult the latched error, check FA_WRITE, clip btw where
fptr + btw would wrap the 32-bit FSIZE_t, run the transfer loop and set
FA_MODIFIED unless the loop aborted (an abort latches fp->err and returns
straight out, skipping the flag update of ff.c 3787). -/
def f_write_m (v : FatVol) (wrc : Nat → Nat → Bool) (wr1 : Nat → Bool)
    (rdf : Nat → Bool) (fp : FIL) (btw : Nat) : FRESULT × FatVol × FIL × Nat :=
  if fp.err ≠ FRESULT.ok then (fp.err, v, fp, 0)
  else if ¬ fp.flagWrite then (FRESULT.noEperm, v, fp, 0)
  else
    let btw2 := if dw (fp.fptr + btw) < fp.fptr then 0xFFFFFFFF - fp.fptr
      else btw
    let r := writeLoop wrc wr1 rdf btw2 v fp btw2 0
    if r.2.2.1.err ≠ FRESULT.ok then r
    else (r.1, r.2.1, { r.2.2.1 with flagModified := true }, r.2.2.2)

/-- f_sync (ff.c 3799-3847) on a handle that passed validate, FF_FS_TINY
== 0: wr is the disk_write flushing the dirty private cache, winOk the
move_window outcome for the directory sector, syncOk the sync_fs outcome;
the directory-entry byte edits (ff.c 3824-3833) are not tracked.  The
latched fp->err is never consulted, and a failure here is not latched
(the function uses LEAVE_FF, not ABORT). -/
def f_sync_m (wr : Nat → Bool) (winOk syncOk : Bool) (fp : FIL) :
    FRESULT × FIL :=
  if fp.flagModified then
    if fp.flagDirty ∧ ¬ wr fp.sect then (FRESULT.diskErr, fp)
    else
      let fp1 := if fp.flagDirty then { fp with flagDirty := false } else fp
      if winOk then
        ((if syncOk then FRESULT.ok else FRESULT.diskErr),
         { fp1 with flagModified := false })
      else (FRESULT.diskErr, fp1)
  else (FRESULT.ok, fp)

/-- readFill leaves the file pointer alone: it only moves the cache. -/
theorem readFill_fptr (rd : Nat → Nat → Bool) (wr : Nat → Bool) (fp1 : FIL)
    (sect : Nat) : (readFill rd wr fp1 sect).2.fptr = fp1.fptr := by
  unfold readFill
  split
  · split
    · split
      · split <;> rfl
      · rfl
    · split <;> rfl
  · rfl

set_option maxHeartbeats 4000000 in
/-- Every readStep outcome keeps the byte count honest: an abort leaves
the file pointer where it was, a continuation advances it by exactly the
rcnt it reports. -/
theorem readStep_fptr (v : FatVol) (rd : Nat → Nat → Bool) (wr : Nat → Bool)
    (fp : FIL) (btr : Nat) :
    (∀ r fpe, readStep v rd wr fp btr = .inl (r, fpe) → fpe.fptr = fp.fptr) ∧
    (∀ fp2 rcnt, readStep v rd wr fp btr = .inr (fp2, rcnt) →
      fp2.fptr = fp.fptr + rcnt) := by
  constructor
  · intro r fpe h
    unfold readStep at h
    simp only [] at h
    repeat' split at h
    all_goals
      first
        | exact Sum.noConfusion h
        | (injection h with h
           injection h with h1 h2
           subst h2
           first
             | rfl
             | (show (readFill rd wr _ _).2.fptr = fp.fptr
                rw [readFill_fptr]))
  · intro fp2 rcnt h
    unfold readStep at h
    simp only [] at h
    repeat' split at h
    all_goals
      first
        | exact Sum.noConfusion h
        | (injection h with h
           injection h with h1 h2
           subst h1
           subst h2
           first
             | rfl
             | simp [readFill_fptr])

/-- The bytes counted by readLoop equal the advance of the file pointer,
and the counter never decreases: every loop exit, normal or aborted,
returns the bytes moved so far. -/
theorem readLoop_fptr (v : FatVol) (rd : Nat → Nat → Bool) (wr : Nat → Bool) :
    ∀ fuel fp btr br,
      (readLoop v rd wr fuel fp btr br).2.1.fptr + br =
        fp.fptr + (readLoop v rd wr fuel fp btr br).2.2 ∧
      br ≤ (readLoop v rd wr fuel fp btr br).2.2 := by
  intro fuel
  induction fuel with
  | zero => intro fp btr br; exact ⟨rfl, Nat.le_refl br⟩
  | succ n ih =>
    intro fp btr br
    simp only [readLoop]
    split
    · exact ⟨rfl, Nat.le_refl br⟩
    · obtain ⟨habort, hcont⟩ := readStep_fptr v rd wr fp btr
      cases hs : readStep v rd wr fp btr with
      | inl p =>
          obtain ⟨r, fpe⟩ := p
          simp only []
          have := habort r fpe hs
          exact ⟨by omega, Nat.le_refl br⟩
      | inr p =>
          obtain ⟨fp2, rcnt⟩ := p
          simp only []
          have hadv := hcont fp2 rcnt hs
          obtain ⟨h1, h2⟩ := ih fp2 (btr - rcnt) (br + rcnt)
          exact ⟨by omega, Nat.le_trans (Nat.le_add_right _ _) h2⟩

/-- FAT32 volume for the read counterexample: one 512-byte-sector
cluster per cluster, and the FAT cell of cluster 2 holds the disk-error
marker, so following the chain past the first cluster fails. -/
def exV7 : FatVol :=
  FatVol.mk FS_FAT32 10 1 512 3 5 100 (fun c => if c = 2 then 0xFFFFFFFF else 0)

/-- Read-only handle on that volume: a 1024-byte file starting at
cluster 2, file pointer at 0, no latched error. -/
def exFp7 : FIL := FIL.mk 2 1024 0 0 0 true false false false FRESULT.ok

/-- Counterexample to claim C7 as stated: reading 1024 bytes moves the
first 512-byte cluster successfully, then the FAT lookup for the second
cluster fails, and f_read returns FR_DISK_ERR with *br = 512, not 0. -/
theorem c7_counterexample :
    (f_read_m exV7 (fun _ _ => true) (fun _ => true) exFp7 1024).1 =
      FRESULT.diskErr ∧
    (f_read_m exV7 (fun _ _ => true) (fun _ => true) exFp7 1024).2.2 = 512 ∧
    (512 : Nat) ≠ 0 := by
  refine ⟨by decide, by decide, by decide⟩

/-- Claim C7 (amended): f_read clears *br at entry, so a failure before
the transfer loop (the latched error of the handle, or a missing FA_READ
bit) reports 0 bytes read; an error inside the loop keeps the bytes
already moved in *br — on every return the counter equals the advance of
the file pointer, not 0. -/
theorem c7_read_byte_count (v : FatVol) (rd : Nat → Nat → Bool)
    (wr : Nat → Bool) (fp : FIL) (btr : Nat) :
    (fp.err ≠ FRESULT.ok → f_read_m v rd wr fp btr = (fp.err, fp, 0)) ∧
    (fp.flagRead = false → (f_read_m v rd wr fp btr).2.2 = 0) ∧
    (f_read_m v rd wr fp btr).2.1.fptr =
      fp.fptr + (f_read_m v rd wr fp btr).2.2 := by
  refine ⟨?_, ?_, ?_⟩
  · intro herr
    unfold f_read_m
    rw [if_pos herr]
  · intro hflag
    unfold f_read_m
    by_cases herr : fp.err ≠ FRESULT.ok
    · rw [if_pos herr]
    · rw [if_neg herr, if_pos (by simp [hflag])]
  · unfold f_read_m
    by_cases herr : fp.err ≠ FRESULT.ok
    · rw [if_pos herr]
      rfl
    · rw [if_neg herr]
      by_cases hflag : ¬ fp.flagRead
      · rw [if_pos hflag]
        rfl
      · rw [if_neg hflag]
        simp only []
        have h := readLoop_fptr v rd wr
          (if dw (fp.objsize + 0x100000000 - fp.fptr) < btr then
            dw (fp.objsize + 0x100000000 - fp.fptr) else btr) fp
          (if dw (fp.objsize + 0x100000000 - fp.fptr) < btr then
            dw (fp.objsize + 0x100000000 - fp.fptr) else btr) 0
        omega

/-- Write-enabled handle with a latched disk error for the sticky-error
theorems: cached sector 7 both modified and dirty. -/
def exFp8 : FIL := FIL.mk 2 1024 512 2 7 true true true true FRESULT.diskErr

/-- Counterexample to claim C8 as stated: f_sync never consults the
latched err field. On a handle whose err is FR_DISK_ERR but which is
marked modified and dirty, f_sync flushes the cache to disk — the result
depends on the disk_write outcome, so disk I/O is performed — and when
the disk cooperates it returns FR_OK, not the stored error. -/
theorem c8_counterexample :
    exFp8.err = FRESULT.diskErr ∧
    (f_sync_m (fun _ => true) true true exFp8).1 = FRESULT.ok ∧
    (f_sync_m (fun _ => false) true true exFp8).1 = FRESULT.diskErr ∧
    (f_sync_m (fun _ => true) true true exFp8).2.flagDirty = false ∧
    exFp8.flagDirty = true := by
  refine ⟨by decide, by decide, by decide, by decide, by decide⟩

/-- Claim C8 (amended): a latched err short-circuits f_read, f_write and
f_truncate — they return the stored error with the handle, the volume and
the byte counter untouched, independent of every disk outcome — but not
f_sync (see the counterexample). -/
theorem c8_sticky_error_short_circuit (v : FatVol) (rd wrc : Nat → Nat → Bool)
    (wr wr1 rdf : Nat → Bool) (fp : FIL) (btr btw length : Nat) (wOk : Bool)
    (herr : fp.err ≠ FRESULT.ok) :
    f_read_m v rd wr fp btr = (fp.err, fp, 0) ∧
    f_write_m v wrc wr1 rdf fp btw = (fp.err, v, fp, 0) ∧
    f_truncate_m v fp length wOk = (fp.err, v, fp) := by
  refine ⟨?_, ?_, ?_⟩
  · unfold f_read_m
    rw [if_pos herr]
  · unfold f_write_m
    rw [if_pos herr]
  · unfold f_truncate_m
    rw [if_pos herr]

/-- The sticky-error theorem at a concrete input: the handle with the
latched FR_DISK_ERR is returned unchanged by all three calls. -/
theorem c8_sticky_error_short_circuit_witness :
    exFp8.err = FRESULT.diskErr ∧
    f_read_m exV7 (fun _ _ => true) (fun _ => true) exFp8 64 =
      (exFp8.err, exFp8, 0) ∧
    f_write_m exV7 (fun _ _ => true) (fun _ => true) (fun _ => true) exFp8 64 =
      (exFp8.err, exV7, exFp8, 0) ∧
    f_truncate_m exV7 exFp8 0 true = (exFp8.err, exV7, exFp8) := by
  have h := c8_sticky_error_short_circuit exV7 (fun _ _ => true)
    (fun _ _ => true) (fun _ => true) (fun _ => true) (fun _ => true) exFp8
    64 64 0 true (by decide)
  exact ⟨by decide, h.1, h.2.1, h.2.2⟩

/-- Claim C10: on a handle with no latched error, the wrong mode bit
makes f_read, f_write and f_truncate fail with FR_NO_EPERM (not
FR_DENIED) before any byte moves and with the handle and the volume
untouched. -/
theorem c10_wrong_mode_no_eperm (v : FatVol) (rd wrc : Nat → Nat → Bool)
    (wr wr1 rdf : Nat → Bool) (fp : FIL) (btr btw length : Nat) (wOk : Bool)
    (herr : fp.err = FRESULT.ok) :
    (fp.flagRead = false →
      f_read_m v rd wr fp btr = (FRESULT.noEperm, fp, 0)) ∧
    (fp.flagWrite = false →
      f_write_m v wrc wr1 rdf fp btw = (FRESULT.noEperm, v, fp, 0)) ∧
    (fp.flagWrite = false →
      f_truncate_m v fp length wOk = (FRESULT.noEperm, v, fp)) ∧
    FRESULT.noEperm ≠ FRESULT.denied := by
  refine ⟨?_, ?_, ?_, by decide⟩
  · intro hflag
    unfold f_read_m
    rw [if_neg (by simp [herr]), if_pos (by simp [hflag])]
  · intro hflag
    unfold f_write_m
    rw [if_neg (by simp [herr]), if_pos (by simp [hflag])]
  · intro hflag
    unfold f_truncate_m
    rw [if_neg (by simp [herr]), if_pos (by simp [hflag])]

/-- Read-only handle (no FA_WRITE) with no latched error. -/
def exFp10r : FIL := FIL.mk 2 1024 0 0 0 true false false false FRESULT.ok

/-- Write-only handle (no FA_READ) with no latched error. -/
def exFp10w : FIL := FIL.mk 2 1024 0 0 0 false true false false FRESULT.ok

/-- The wrong-mode theorem at concrete inputs: a write-only handle read
and a read-only handle written and truncated, all FR_NO_EPERM. -/
theorem c10_wrong_mode_no_eperm_witness :
    f_read_m exV7 (fun _ _ => true) (fun _ => true) exFp10w 64 =
      (FRESULT.noEperm, exFp10w, 0) ∧
    f_write_m exV7 (fun _ _ => true) (fun _ => true) (fun _ => true)
      exFp10r 64 = (FRESULT.noEperm, exV7, exFp10r, 0) ∧
    f_truncate_m exV7 exFp10r 0 true = (FRESULT.noEperm, exV7, exFp10r) := by
  have hw := c10_wrong_mode_no_eperm exV7 (fun _ _ => true) (fun _ _ => true)
    (fun _ => true) (fun _ => true) (fun _ => true) exFp10w 64 64 0 true rfl
  have hr := c10_wrong_mode_no_eperm exV7 (fun _ _ => true) (fun _ _ => true)
    (fun _ => true) (fun _ => true) (fun _ => true) exFp10r 64 64 0 true rfl
  exact ⟨hw.1 rfl, hr.2.1 rfl, hr.2.2.1 rfl⟩

end FatFs
